import Mathlib

/-!
Shallow embedding of `ternuino_designer/core/logic.py`: a balanced-ternary
circuit simulator.  Trits are `Int`s kept in `{-1, 0, 1}` by saturation.
Python dictionaries (insertion ordered) are modelled as association lists;
Python exceptions (`KeyError` on a missing dict key, the explicit
`ValueError`s) are modelled with `Except CircuitError`.
-/

namespace Ternuino

/-- Translation of `clamp_t` (logic.py lines 9-14). -/
def clamp_t (v : Int) : Int :=
  if v > 1 then 1 else if v < -1 then -1 else v

/-- Translation of `resolve_wire` (logic.py lines 17-28).  Python builds
`s = set(drivers)` and tests membership; membership in the list is the same
test, and the loop `for val in (1, -1)` is unrolled into the two branches. -/
def resolve_wire (drivers : List Int) : Int :=
  if -1 ∈ drivers ∧ 1 ∈ drivers then 0
  else if 1 ∈ drivers then 1
  else if -1 ∈ drivers then -1
  else 0

/-- Translation of `Port` (logic.py lines 31-35). -/
structure Port where
  id : String
  direction : String
  value : Int
deriving DecidableEq

/-- Lookup in an association list, the model of Python's ordered `dict`
read `d[k]` (first entry with the key wins; keys are unique in practice). -/
def alookup {α β : Type} [DecidableEq α] : List (α × β) → α → Option β
  | [], _ => none
  | e :: rest, k => if e.1 = k then some e.2 else alookup rest k

/-- Update every entry with key `k` by `f`, the model of mutating the value
stored under an existing dict key. -/
def amodify {α β : Type} [DecidableEq α] (l : List (α × β)) (k : α) (f : β → β) :
    List (α × β) :=
  l.map (fun e => if e.1 = k then (e.1, f e.2) else e)

/-- Keys of an association list. -/
def akeys {α β : Type} (l : List (α × β)) : List α := l.map (·.1)

/-- The model of `self.ports[name].value = v` once `name` is known present. -/
def setPortValue (ps : List (String × Port)) (name : String) (v : Int) :
    List (String × Port) :=
  amodify ps name (fun p => { p with value := v })

/-- Per-variant private state: switches store a value, the latch an internal
memory trit, the probe its last observation; the remaining variants are
stateless.  This is the closed-variant rendering of the nine subclasses. -/
inductive CompState where
  | switchBinary (value : Int)
  | switchTernary (value : Int)
  | tnot
  | tand
  | tnor
  | transistor
  | tlatch (state : Int)
  | probe (last : Int)
  | tfulladder
deriving DecidableEq

/-- Translation of `Component` (logic.py lines 38-51) together with the
subclass-specific fields, carried in `state`. -/
structure Component where
  id : String
  type : String
  ports : List (String × Port)
  state : CompState
deriving DecidableEq

/-- Error taxonomy of the engine (Python raises `ValueError` / `KeyError`;
the spec names them as below). -/
inductive CircuitError where
  | duplicateId (id : String)
  | unknownComponent (id : String)
  | unknownPort (comp port : String)
  | notASwitch (id : String)
  | notAProbe (id : String)
  | valueError (id : String)
deriving DecidableEq

instance {ε α : Type} [DecidableEq ε] [DecidableEq α] :
    DecidableEq (Except ε α) := fun x y =>
  match x, y with
  | .ok a, .ok b =>
      if h : a = b then .isTrue (congrArg Except.ok h)
      else .isFalse (fun hh => h (Except.ok.inj hh))
  | .error a, .error b =>
      if h : a = b then .isTrue (congrArg Except.error h)
      else .isFalse (fun hh => h (Except.error.inj hh))
  | .ok _, .error _ => .isFalse (fun hh => Except.noConfusion hh)
  | .error _, .ok _ => .isFalse (fun hh => Except.noConfusion hh)

/-- Translation of `Component.get_in` (logic.py lines 44-45): read
`self.ports[name].value`; a missing key is a `KeyError` (UnknownPortError). -/
def Component.get_in (c : Component) (name : String) : Except CircuitError Int :=
  match alookup c.ports name with
  | some p => .ok p.value
  | none => .error (.unknownPort c.id name)

/-- Translation of `Component.set_out` (logic.py lines 47-48): write
`clamp_t val` into `self.ports[name].value`; missing key is a `KeyError`. -/
def Component.set_out (c : Component) (name : String) (val : Int) :
    Except CircuitError Component :=
  if (alookup c.ports name).isSome then
    .ok { c with ports := setPortValue c.ports name (clamp_t val) }
  else
    .error (.unknownPort c.id name)

/-- Python `round(t / 3.0)` for an integer `t`, as used by `TFullAdder.step`.
For an integer `t`, `t/3` is never a half-integer, so Python's
round-half-to-even agrees with plain rounding to the nearest integer;
and for the reachable range `|t| ≤ 3` the float quotient is close enough to
`t/3` that rounding the float gives that same nearest integer.  The nearest
integer to `n/3` for `n ≥ 0` is `(n+1)/3` in truncating division, extended
to negatives by symmetry. -/
def pyRound3 (t : Int) : Int :=
  if 0 ≤ t then (t + 1) / 3 else -((-t + 1) / 3)

/-- Per-variant transfer function: translation of the nine `step` methods
(logic.py lines 50-51, 90-92, 103-106, 117-120, 136-142, 158-161, 171-172,
192-206).  `SwitchBinary`/`SwitchTernary` inherit the base `pass`. -/
def compStep (c : Component) : Except CircuitError Component :=
  match c.state with
  | .switchBinary _ => .ok c
  | .switchTernary _ => .ok c
  | .tnot => do
      let x ← c.get_in "in"
      c.set_out "out" (-x)
  | .tand => do
      let a ← c.get_in "in1"
      let b ← c.get_in "in2"
      c.set_out "out" (min a b)
  | .tnor => do
      let a ← c.get_in "in1"
      let b ← c.get_in "in2"
      c.set_out "out" (-(max a b))
  | .transistor => do
      let p ← c.get_in "presence"
      let s ← c.get_in "sign"
      if p ≠ 0 ∧ s ≠ 0 then c.set_out "out" s else c.set_out "out" 0
  | .tlatch st => do
      let en ← c.get_in "enable"
      if en = 1 then
        let inp ← c.get_in "in"
        Component.set_out { c with state := .tlatch inp } "out" inp
      else
        c.set_out "out" st
  | .probe _ => do
      let x ← c.get_in "in"
      .ok { c with state := .probe x }
  | .tfulladder => do
      let a ← c.get_in "ai"
      let b ← c.get_in "bi"
      let ci ← c.get_in "ci"
      let total := a + b + ci
      let co0 := pyRound3 total
      let co := if co0 > 1 then 1 else if co0 < -1 then -1 else co0
      let so := total - 3 * co
      let c2 ← c.set_out "co" (clamp_t co)
      c2.set_out "so" (clamp_t so)

/-- Translation of `SwitchBinary.toggle` (lines 62-64) and
`SwitchTernary.toggle` (lines 75-80).  The Python base class has no
`toggle`, so calling it on any other variant is an attribute error, and a
switch value outside the cycle list raises `ValueError` from `order.index`. -/
def Component.toggle (c : Component) : Except CircuitError Component :=
  match c.state with
  | .switchBinary v =>
      let nv : Int := if v = 1 then 0 else 1
      Component.set_out { c with state := .switchBinary nv } "out" nv
  | .switchTernary v =>
      match List.findIdx? (fun o => o = v) [(-1 : Int), 0, 1] with
      | none => .error (.valueError c.id)
      | some i =>
          let nv := List.getD [(-1 : Int), 0, 1] ((i + 1) % 3) 0
          Component.set_out { c with state := .switchTernary nv } "out" nv
  | _ => .error (.notASwitch c.id)

/-- Constructor of `SwitchBinary` (lines 54-60): one output port, stored
value `1 if value else 0`, output written through `set_out` (which clamps). -/
def mkSwitchBinary (id : String) (value : Int) : Component :=
  let v : Int := if value ≠ 0 then 1 else 0
  { id := id, type := "SwitchBinary",
    ports := [("out", ⟨"out", "out", clamp_t v⟩)],
    state := .switchBinary v }

/-- Constructor of `SwitchTernary` (lines 67-73). -/
def mkSwitchTernary (id : String) (value : Int) : Component :=
  let v := clamp_t value
  { id := id, type := "SwitchTernary",
    ports := [("out", ⟨"out", "out", clamp_t v⟩)],
    state := .switchTernary v }

/-- Constructor of `TNOT` (lines 83-88). -/
def mkTNOT (id : String) : Component :=
  { id := id, type := "TNOT",
    ports := [("in", ⟨"in", "in", 0⟩), ("out", ⟨"out", "out", 0⟩)],
    state := .tnot }

/-- Constructor of `TAND` (lines 95-101). -/
def mkTAND (id : String) : Component :=
  { id := id, type := "TAND",
    ports := [("in1", ⟨"in1", "in", 0⟩), ("in2", ⟨"in2", "in", 0⟩),
              ("out", ⟨"out", "out", 0⟩)],
    state := .tand }

/-- Constructor of `TNOR` (lines 109-115). -/
def mkTNOR (id : String) : Component :=
  { id := id, type := "TNOR",
    ports := [("in1", ⟨"in1", "in", 0⟩), ("in2", ⟨"in2", "in", 0⟩),
              ("out", ⟨"out", "out", 0⟩)],
    state := .tnor }

/-- Constructor of `Transistor` (lines 123-134). -/
def mkTransistor (id : String) : Component :=
  { id := id, type := "Transistor",
    ports := [("presence", ⟨"presence", "in", 0⟩), ("sign", ⟨"sign", "in", 0⟩),
              ("out", ⟨"out", "out", 0⟩)],
    state := .transistor }

/-- Constructor of `TLatch` (lines 145-156). -/
def mkTLatch (id : String) : Component :=
  { id := id, type := "TLatch",
    ports := [("in", ⟨"in", "in", 0⟩), ("enable", ⟨"enable", "in", 0⟩),
              ("out", ⟨"out", "out", 0⟩)],
    state := .tlatch 0 }

/-- Constructor of `Probe` (lines 164-169). -/
def mkProbe (id : String) : Component :=
  { id := id, type := "Probe",
    ports := [("in", ⟨"in", "in", 0⟩)],
    state := .probe 0 }

/-- Constructor of `TFullAdder` (lines 183-190). -/
def mkTFullAdder (id : String) : Component :=
  { id := id, type := "TFullAdder",
    ports := [("ai", ⟨"ai", "in", 0⟩), ("bi", ⟨"bi", "in", 0⟩),
              ("ci", ⟨"ci", "in", 0⟩), ("so", ⟨"so", "out", 0⟩),
              ("co", ⟨"co", "out", 0⟩)],
    state := .tfulladder }

/-- Translation of `Wire` (logic.py lines 209-214). -/
structure Wire where
  src_comp : String
  src_port : String
  dst_comp : String
  dst_port : String
deriving DecidableEq

/-- Translation of `Circuit` (logic.py lines 217-220): a dict from id to
component and a list of wires. -/
structure Circuit where
  components : List (String × Component)
  wires : List Wire
deriving DecidableEq

/-- The empty circuit (`Circuit.__init__`). -/
def Circuit.empty : Circuit := { components := [], wires := [] }

/-- Translation of `Circuit.add` (lines 222-225): reject a duplicate id,
otherwise insert at the end of the (insertion-ordered) dict. -/
def Circuit.add (c : Circuit) (comp : Component) : Except CircuitError Circuit :=
  if (alookup c.components comp.id).isSome then
    .error (.duplicateId comp.id)
  else
    .ok { c with components := c.components ++ [(comp.id, comp)] }

/-- Translation of `Circuit.connect` (lines 227-228): unconditionally append
one wire. -/
def Circuit.connect (c : Circuit) (sc sp dc dp : String) : Circuit :=
  { c with wires := c.wires ++ [⟨sc, sp, dc, dp⟩] }

/-- Python `inputs.setdefault(key, []).append(val)`: append `v` to the list
stored under `k`, creating the entry at the end if the key is new. -/
def addDriver : List ((String × String) × List Int) → (String × String) → Int →
    List ((String × String) × List Int)
  | [], k, v => [(k, [v])]
  | e :: rest, k, v =>
      if e.1 = k then (e.1, e.2 ++ [v]) :: rest else e :: addDriver rest k v

/-- Phase 1 of `Circuit.step` (lines 231-237): walk the wires in order,
reading each source output value from the pre-step components and grouping
the values by destination `(component id, port name)`.  A missing source
component or port is the `KeyError` the spec calls
UnknownComponentError/UnknownPortError. -/
def gather (comps : List (String × Component)) :
    List Wire → List ((String × String) × List Int) →
    Except CircuitError (List ((String × String) × List Int))
  | [], acc => .ok acc
  | w :: ws, acc =>
      match alookup comps w.src_comp with
      | none => .error (.unknownComponent w.src_comp)
      | some src =>
          match alookup src.ports w.src_port with
          | none => .error (.unknownPort w.src_comp w.src_port)
          | some p => gather comps ws (addDriver acc (w.dst_comp, w.dst_port) p.value)

/-- Phase 2 of `Circuit.step` (lines 239-242): for each gathered destination,
in insertion order, write `resolve_wire drivers` into that input port.
Missing destination component/port is again a `KeyError`. -/
def writeInputs (comps : List (String × Component)) :
    List ((String × String) × List Int) →
    Except CircuitError (List (String × Component))
  | [] => .ok comps
  | (k, drivers) :: rest =>
      match alookup comps k.1 with
      | none => .error (.unknownComponent k.1)
      | some comp =>
          if (alookup comp.ports k.2).isSome then
            writeInputs
              (amodify comps k.1
                (fun cc => { cc with ports := setPortValue cc.ports k.2 (resolve_wire drivers) }))
              rest
          else
            .error (.unknownPort k.1 k.2)

/-- Phase 3 of `Circuit.step` (lines 244-246): run every component's transfer
function once, in dict order; each call touches only that component. -/
def stepAll : List (String × Component) →
    Except CircuitError (List (String × Component))
  | [] => .ok []
  | (k, c) :: rest => do
      let c2 ← compStep c
      let rest2 ← stepAll rest
      .ok ((k, c2) :: rest2)

/-- Translation of `Circuit.step` (lines 230-246): gather drivers, resolve
into input ports, then step every component. -/
def Circuit.step (c : Circuit) : Except CircuitError Circuit := do
  let inputs ← gather c.components c.wires []
  let comps2 ← writeInputs c.components inputs
  let comps3 ← stepAll comps2
  .ok { c with components := comps3 }

/-- Iterated `Circuit.step`. -/
def Circuit.stepN (c : Circuit) : Nat → Except CircuitError Circuit
  | 0 => .ok c
  | n + 1 => do
      let c2 ← c.step
      c2.stepN n

/-- Translation of `Circuit.set_switch` (lines 248-257): store the coerced
value and immediately push it to the output port; any non-switch target is
a `ValueError` ("Component is not a switch", NotASwitchError). -/
def Circuit.set_switch (c : Circuit) (comp_id : String) (value : Int) :
    Except CircuitError Circuit :=
  match alookup c.components comp_id with
  | none => .error (.unknownComponent comp_id)
  | some comp =>
      match comp.state with
      | .switchBinary _ => do
          let nv : Int := if value ≠ 0 then 1 else 0
          let comp2 ← Component.set_out { comp with state := .switchBinary nv } "out" nv
          .ok { c with components := amodify c.components comp_id (fun _ => comp2) }
      | .switchTernary _ => do
          let nv := clamp_t value
          let comp2 ← Component.set_out { comp with state := .switchTernary nv } "out" nv
          .ok { c with components := amodify c.components comp_id (fun _ => comp2) }
      | _ => .error (.notASwitch comp_id)

/-- Toggling a switch through the circuit: the GUI fetches the component
object (aliased inside `circuit.components`) and calls its `toggle`. -/
def Circuit.toggle (c : Circuit) (comp_id : String) : Except CircuitError Circuit :=
  match alookup c.components comp_id with
  | none => .error (.unknownComponent comp_id)
  | some comp => do
      let comp2 ← comp.toggle
      .ok { c with components := amodify c.components comp_id (fun _ => comp2) }

/-- Translation of `Circuit.get_probe` (lines 259-263): return `last` of a
probe, `ValueError` ("Component is not a probe", NotAProbeError) otherwise. -/
def Circuit.get_probe (c : Circuit) (comp_id : String) : Except CircuitError Int :=
  match alookup c.components comp_id with
  | none => .error (.unknownComponent comp_id)
  | some comp =>
      match comp.state with
      | .probe last => .ok last
      | _ => .error (.notAProbe comp_id)

/-- Membership in the trit range `{-1, 0, 1}`. -/
def validTrit (v : Int) : Prop := v = -1 ∨ v = 0 ∨ v = 1

instance (v : Int) : Decidable (validTrit v) := by
  unfold validTrit; infer_instance

/-- Name, id and direction of each entry of a port dict — the structural
signature that the engine never changes after construction. -/
def portSig (ps : List (String × Port)) : List (String × String × String) :=
  ps.map (fun e => (e.1, e.2.id, e.2.direction))

/-- The port layout each variant's constructor installs. -/
def stdSig : CompState → List (String × String × String)
  | .switchBinary _ => [("out", "out", "out")]
  | .switchTernary _ => [("out", "out", "out")]
  | .tnot => [("in", "in", "in"), ("out", "out", "out")]
  | .tand => [("in1", "in1", "in"), ("in2", "in2", "in"), ("out", "out", "out")]
  | .tnor => [("in1", "in1", "in"), ("in2", "in2", "in"), ("out", "out", "out")]
  | .transistor =>
      [("presence", "presence", "in"), ("sign", "sign", "in"), ("out", "out", "out")]
  | .tlatch _ => [("in", "in", "in"), ("enable", "enable", "in"), ("out", "out", "out")]
  | .probe _ => [("in", "in", "in")]
  | .tfulladder =>
      [("ai", "ai", "in"), ("bi", "bi", "in"), ("ci", "ci", "in"),
       ("so", "so", "out"), ("co", "co", "out")]

/-- A component whose port dict has exactly its constructor's layout (values
are unrestricted).  Every component built by the `mk*` constructors is
standard, and the engine preserves standardness. -/
def Component.std (c : Component) : Prop := portSig c.ports = stdSig c.state

instance (c : Component) : Decidable c.std := by
  unfold Component.std; infer_instance

/-- Existence of the port `(cid, pname)` in a component dict. -/
def portExists (comps : List (String × Component)) (cid pname : String) : Bool :=
  match alookup comps cid with
  | none => false
  | some comp => (alookup comp.ports pname).isSome

/-- Both endpoints of a wire name an existing component and port. -/
def wireValid (comps : List (String × Component)) (w : Wire) : Prop :=
  portExists comps w.src_comp w.src_port = true ∧
  portExists comps w.dst_comp w.dst_port = true

instance (comps : List (String × Component)) (w : Wire) :
    Decidable (wireValid comps w) := by
  unfold wireValid; infer_instance

/-- The value a wire's source output port holds (0 if dangling — only used
on valid wires). -/
def srcVal (comps : List (String × Component)) (w : Wire) : Int :=
  (((alookup comps w.src_comp).bind (fun c => alookup c.ports w.src_port)).map
    Port.value).getD 0

/-- The pre-step values of all wires driving the input port `k`, in wire
order. -/
def dstvals (comps : List (String × Component)) (ws : List Wire)
    (k : String × String) : List Int :=
  (ws.filter (fun w => decide ((w.dst_comp, w.dst_port) = k))).map (srcVal comps)

/-- `k` is the destination of at least one wire. -/
def isDriven (ws : List Wire) (k : String × String) : Prop :=
  ∃ w ∈ ws, (w.dst_comp, w.dst_port) = k

instance (ws : List Wire) (k : String × String) : Decidable (isDriven ws k) := by
  unfold isDriven; infer_instance

/-- The spec's rounding rule, written from its words: `co = round(total/3)`
with "round-half-away-from-zero".  Rounding `x` half away from zero is
`sign(x) * floor(|x| + 1/2)`; with `x = |t|/3` the floor is
`(2*|t| + 3) / 6` in truncating division. -/
def specRound3 (t : Int) : Int :=
  if 0 ≤ t then (2 * t + 3) / 6 else -((2 * (-t) + 3) / 6)

/-- TFullAdder as it stands right after phase 1 wrote `a`, `b`, `ci` into
its input ports: the constructor's layout with those input values. -/
def adderWith (a b ci : Int) : Component :=
  { id := "fa", type := "TFullAdder",
    ports := [("ai", ⟨"ai", "in", a⟩), ("bi", ⟨"bi", "in", b⟩),
              ("ci", ⟨"ci", "in", ci⟩), ("so", ⟨"so", "out", 0⟩),
              ("co", ⟨"co", "out", 0⟩)],
    state := .tfulladder }

/-- TLatch with input-port value `i`, enable-port value `e`, internal state
`s` and output-port value `o`. -/
def latchWith (i e s o : Int) : Component :=
  { id := "l", type := "TLatch",
    ports := [("in", ⟨"in", "in", i⟩), ("enable", ⟨"enable", "in", e⟩),
              ("out", ⟨"out", "out", o⟩)],
    state := .tlatch s }

/-- Write fresh values into a latch's `in` and `enable` ports (what phase 1
of a step does between latch evaluations). -/
def setLatchIns (c : Component) (iv ev : Int) : Component :=
  { c with ports := setPortValue (setPortValue c.ports "in" iv) "enable" ev }

/-- Output-port value of a component-step result. -/
def outOf (r : Except CircuitError Component) (n : String) : Option Int :=
  r.toOption.bind (fun c => (alookup c.ports n).map (·.value))

/-- Internal state and output value of a latch-step result. -/
def stateOut (c : Component) : CompState × Option Int :=
  (c.state, (alookup c.ports "out").map (·.value))


/-- Success test for `Except`. -/
def isOkE {ε α : Type} : Except ε α → Bool
  | .ok _ => true
  | .error _ => false

/-- How `addDriver` extends the drivers recorded for one key: appending to
an existing entry, or creating one when any new driver arrives. -/
def combineDrv (o : Option (List Int)) (l : List Int) : Option (List Int) :=
  match o with
  | some xs => some (xs ++ l)
  | none => if l.isEmpty then none else some l

/-- The keys of an association list are pairwise distinct (always true of a
list modelling a Python dict). -/
def keysNodup {α β : Type} (l : List (α × β)) : Prop := (akeys l).Nodup

instance {α β : Type} [DecidableEq α] (l : List (α × β)) :
    Decidable (keysNodup l) := by
  unfold keysNodup akeys; infer_instance

/-- Everything about a component except its port values: what phase 1 and
phase 2 of a step may never change. -/
def compShape (c : Component) :
    String × String × CompState × List (String × String × String) :=
  (c.id, c.type, c.state, portSig c.ports)

/-- Shapes of a whole component dict. -/
def compsShape (comps : List (String × Component)) :
    List (String × String × String × CompState × List (String × String × String)) :=
  comps.map (fun e => (e.1, compShape e.2))

/-- Everything about a component except its port values and private state:
what no engine operation after construction ever changes. -/
def compStruct (c : Component) :
    String × String × List (String × String × String) :=
  (c.id, c.type, portSig c.ports)

/-- Structures of a whole component dict. -/
def compsStruct (comps : List (String × Component)) :
    List (String × String × String × List (String × String × String)) :=
  comps.map (fun e => (e.1, compStruct e.2))

/-- Value held by the port `k = (component id, port name)`. -/
def compsPortValue (comps : List (String × Component)) (k : String × String) :
    Option Int :=
  (alookup comps k.1).bind (fun c => (alookup c.ports k.2).map (·.value))

/-- Phase 3 run in an explicitly chosen evaluation order: for each id in
`order`, replace that component by its stepped version (ids without an
entry are skipped).  `Circuit.step` uses dict order; C3 states any order
that enumerates the keys once gives the same result. -/
def stepInOrder : List String → List (String × Component) →
    Except CircuitError (List (String × Component))
  | [], comps => .ok comps
  | id :: rest, comps =>
      match alookup comps id with
      | none => stepInOrder rest comps
      | some c => do
          let c2 ← compStep c
          stepInOrder rest (amodify comps id (fun _ => c2))

/-- Total restriction of `compStep` (identity on failure; never hit on
standard components). -/
def pstep (c : Component) : Component :=
  match compStep c with
  | .ok c' => c'
  | .error _ => c

/-- `Circuit.step` with phase 3 replaced by an explicit evaluation order. -/
def Circuit.stepWithOrder (c : Circuit) (order : List String) :
    Except CircuitError Circuit := do
  let inputs ← gather c.components c.wires []
  let comps2 ← writeInputs c.components inputs
  let comps3 ← stepInOrder order comps2
  .ok { c with components := comps3 }

/-- The circuit's structure: component ids, types, port layouts, and the
wire list — everything claims C10 says the engine never mutates. -/
def Circuit.shape (c : Circuit) :
    List (String × String × String × List (String × String × String)) × List Wire :=
  (compsStruct c.components, c.wires)

/-- The full port (not just its value) at `k = (component id, port name)`. -/
def compsPortOf (comps : List (String × Component)) (k : String × String) :
    Option Port :=
  (alookup comps k.1).bind (fun c => alookup c.ports k.2)

/-- The full port reached from a circuit. -/
def portOf (c : Circuit) (cid pname : String) : Option Port :=
  compsPortOf c.components (cid, pname)

/-- Per-variant private state lies in the trit range. -/
def stateValid : CompState → Prop
  | .switchBinary v => validTrit v
  | .switchTernary v => validTrit v
  | .tlatch s => validTrit s
  | .probe l => validTrit l
  | _ => True

instance (s : CompState) : Decidable (stateValid s) := by
  cases s <;> unfold stateValid <;> infer_instance

/-- Every stored trit of a component — all port values and its private
state — lies in `{-1, 0, 1}`. -/
def Component.valid (c : Component) : Prop :=
  (∀ e ∈ c.ports, validTrit e.2.value) ∧ stateValid c.state

instance (c : Component) : Decidable c.valid := by
  unfold Component.valid; infer_instance

/-- Every stored trit anywhere in the circuit lies in `{-1, 0, 1}`. -/
def Circuit.valid (c : Circuit) : Prop := ∀ e ∈ c.components, e.2.valid

instance (c : Circuit) : Decidable c.valid := by
  unfold Circuit.valid; infer_instance

/-- The circuit of `tests/smoke_test.py` lines 13-38, built through the
engine API. -/
def smokeBuild : Except CircuitError Circuit := do
  let c0 := Circuit.empty
  let c1 ← c0.add (mkSwitchTernary "sw1" 1)
  let c2 ← c1.add (mkSwitchTernary "sw2" (-1))
  let c3 ← c2.add (mkTAND "and1")
  let c4 ← c3.add (mkTNOR "nor1")
  let c5 ← c4.add (mkTransistor "t1")
  let c6 ← c5.add (mkTLatch "l1")
  let c7 ← c6.add (mkProbe "p1")
  let c8 := c7.connect "sw1" "out" "and1" "in1"
  let c9 := c8.connect "sw2" "out" "and1" "in2"
  let c10 := c9.connect "and1" "out" "t1" "presence"
  let c11 := c10.connect "sw1" "out" "t1" "sign"
  let c12 := c11.connect "t1" "out" "nor1" "in1"
  let c13 := c12.connect "sw2" "out" "nor1" "in2"
  let c14 := c13.connect "nor1" "out" "l1" "in"
  let c15 := c14.connect "sw1" "out" "l1" "enable"
  .ok (c15.connect "l1" "out" "p1" "in")

/-- Value of a named port of a named component, read off a circuit. -/
def portValue (c : Circuit) (cid pname : String) : Option Int :=
  (alookup c.components cid).bind (fun comp => (alookup comp.ports pname).map (·.value))

/-- A two-gate chain `sw → not1 → not2` used to exhibit the one-hop-per-step
behaviour of the engine. -/
def chainCircuit : Except CircuitError Circuit := do
  let c1 ← Circuit.empty.add (mkSwitchTernary "sw" 1)
  let c2 ← c1.add (mkTNOT "not1")
  let c3 ← c2.add (mkTNOT "not2")
  let c4 := c3.connect "sw" "out" "not1" "in"
  .ok (c4.connect "not1" "out" "not2" "in")

theorem except_bind_ok {ε α β : Type} (a : α) (f : α → Except ε β) :
    (Except.ok a >>= f) = f a := rfl

theorem except_bind_error {ε α β : Type} (e : ε) (f : α → Except ε β) :
    (Except.error e >>= f : Except ε β) = Except.error e := rfl

theorem alookup_amodify {α β : Type} [DecidableEq α] (l : List (α × β))
    (k k' : α) (f : β → β) :
    alookup (amodify l k f) k' =
      if k' = k then (alookup l k').map f else alookup l k' := by
  induction l with
  | nil => by_cases h : k' = k <;> simp [amodify, alookup, h]
  | cons e rest ih =>
      simp only [amodify, List.map_cons] at *
      by_cases h2 : k' = k
      · subst h2
        by_cases h1 : e.1 = k' <;> simp [alookup, h1, ih]
      · by_cases h3 : e.1 = k
        · by_cases h1 : e.1 = k'
          · exact absurd (h1.symm.trans h3) h2
          · simp [alookup, h1, h3, h2, ih, show ¬k = k' from fun h => h2 h.symm]
        · by_cases h1 : e.1 = k' <;> simp [alookup, h1, h3, h2, ih]

theorem akeys_amodify {α β : Type} [DecidableEq α] (l : List (α × β))
    (k : α) (f : β → β) : akeys (amodify l k f) = akeys l := by
  unfold akeys amodify
  rw [List.map_map]
  apply List.map_congr_left
  intro e _
  by_cases h : e.1 = k <;> simp [h]

theorem portSig_setPortValue (ps : List (String × Port)) (n : String) (v : Int) :
    portSig (setPortValue ps n v) = portSig ps := by
  unfold portSig setPortValue amodify
  rw [List.map_map]
  apply List.map_congr_left
  intro e _
  by_cases h : e.1 = n <;> simp [h]

theorem alookup_setPortValue (ps : List (String × Port)) (n : String) (v : Int)
    (m : String) :
    alookup (setPortValue ps n v) m =
      if m = n then (alookup ps m).map (fun p => { p with value := v })
      else alookup ps m :=
  alookup_amodify ps n m _

theorem clamp_t_valid (v : Int) : validTrit (clamp_t v) := by
  unfold clamp_t validTrit
  split_ifs <;> omega

theorem clamp_t_of_valid {v : Int} (h : validTrit v) : clamp_t v = v := by
  rcases h with rfl | rfl | rfl <;> decide

theorem resolve_wire_valid (ds : List Int) : validTrit (resolve_wire ds) := by
  unfold resolve_wire validTrit
  split_ifs <;> simp

/-- C1: `resolve_wire` returns 0 when both -1 and +1 are present, else +1
when present, else -1 when present, else 0; it depends only on which values
occur (invariant under reordering and duplication); and the five concrete
examples of the spec hold. -/
theorem resolve_wire_spec :
    (∀ ds : List Int,
      ((-1 ∈ ds ∧ 1 ∈ ds) → resolve_wire ds = 0) ∧
      ((1 ∈ ds ∧ ¬(-1 ∈ ds)) → resolve_wire ds = 1) ∧
      ((-1 ∈ ds ∧ ¬(1 ∈ ds)) → resolve_wire ds = -1) ∧
      ((¬(1 ∈ ds) ∧ ¬(-1 ∈ ds)) → resolve_wire ds = 0)) ∧
    (∀ ds ds' : List Int, (∀ v, v ∈ ds ↔ v ∈ ds') →
      resolve_wire ds = resolve_wire ds') ∧
    resolve_wire [1, -1] = 0 ∧ resolve_wire [1, 1, 0] = 1 ∧
    resolve_wire [-1, 0] = -1 ∧ resolve_wire [] = 0 ∧ resolve_wire [0, 0] = 0 := by
  refine ⟨fun ds => ?_, fun ds ds' h => ?_, by decide, by decide, by decide,
    by decide, by decide⟩
  · unfold resolve_wire
    refine ⟨fun h => ?_, fun h => ?_, fun h => ?_, fun h => ?_⟩ <;>
      split_ifs <;> tauto
  · unfold resolve_wire
    simp only [h 1, h (-1)]

/-- Witness for C1 at concrete inputs: a singleton +1 driver resolves to +1,
and duplicating a driver does not change the result. -/
theorem resolve_wire_spec_witness :
    resolve_wire [1, 0] = 1 ∧ resolve_wire [1, 1] = resolve_wire [1] :=
  ⟨(resolve_wire_spec.1 [1, 0]).2.1 ⟨by decide, by decide⟩,
   resolve_wire_spec.2.1 [1, 1] [1] (by intro v; simp)⟩

/-- C4: for all trit inputs the full adder satisfies `so + 3*co = ai+bi+ci`
with both outputs trits, `co` equal to `ai+bi+ci` divided by 3 and rounded
to the nearest integer (halves away from zero — no half ever occurs) then
clamped, and `so = clamp(total - 3*co)`; the three concrete rows of the
spec hold. -/
theorem tfulladder_spec :
    (∀ a b ci : Int, validTrit a → validTrit b → validTrit ci →
      ∃ so co : Int,
        outOf (compStep (adderWith a b ci)) "so" = some so ∧
        outOf (compStep (adderWith a b ci)) "co" = some co ∧
        so + 3 * co = a + b + ci ∧ validTrit so ∧ validTrit co ∧
        co = clamp_t (specRound3 (a + b + ci)) ∧
        so = clamp_t (a + b + ci - 3 * co)) ∧
    outOf (compStep (adderWith 1 1 1)) "so" = some 0 ∧
    outOf (compStep (adderWith 1 1 1)) "co" = some 1 ∧
    outOf (compStep (adderWith 1 1 0)) "so" = some (-1) ∧
    outOf (compStep (adderWith 1 1 0)) "co" = some 1 ∧
    outOf (compStep (adderWith (-1) (-1) (-1))) "so" = some 0 ∧
    outOf (compStep (adderWith (-1) (-1) (-1))) "co" = some (-1) := by
  refine ⟨fun a b ci ha hb hc => ?_, by decide, by decide, by decide,
    by decide, by decide, by decide⟩
  rcases ha with rfl | rfl | rfl <;> rcases hb with rfl | rfl | rfl <;>
    rcases hc with rfl | rfl | rfl <;>
    exact ⟨_, _, rfl, rfl, by decide, by decide, by decide, by decide, by decide⟩

/-- Witness for C4: the general statement applied at `(1, 1, 0)` pins the
carry output to 1. -/
theorem tfulladder_spec_witness :
    outOf (compStep (adderWith 1 1 0)) "co" = some 1 := by
  obtain ⟨so, co, hso, hco, hsum, hvs, hvc, hcoeq, hsoeq⟩ :=
    tfulladder_spec.1 1 1 0 (by decide) (by decide) (by decide)
  rw [hco, hcoeq]
  decide

/-- C5: a latch step copies its input into the internal state exactly when
the enable port is +1 (0 and -1 both hold), and always publishes the
(possibly updated) state on the output port; the spec's three-step
persistence scenario holds. -/
theorem tlatch_spec :
    (∀ i e s o : Int, validTrit i → validTrit s →
      compStep (latchWith i e s o) =
        .ok (latchWith i e (if e = 1 then i else s) (if e = 1 then i else s))) ∧
    (compStep (latchWith 1 1 0 0)).toOption.map stateOut =
      some (.tlatch 1, some 1) ∧
    ((compStep (latchWith 1 1 0 0)).bind
        (fun c1 => compStep (setLatchIns c1 (-1) 0))).toOption.map stateOut =
      some (.tlatch 1, some 1) ∧
    ((compStep (latchWith 1 1 0 0)).bind
        (fun c1 => compStep (setLatchIns c1 (-1) 0)) |>.bind
        (fun c2 => compStep (setLatchIns c2 (-1) (-1)))).toOption.map stateOut =
      some (.tlatch 1, some 1) := by
  refine ⟨fun i e s o hi hs => ?_, by decide, by decide, by decide⟩
  by_cases he : e = 1
  · subst he
    simp [compStep, latchWith, Component.get_in, Component.set_out, alookup,
      setPortValue, amodify, except_bind_ok, clamp_t_of_valid hi]
  · simp [compStep, latchWith, Component.get_in, Component.set_out, alookup,
      setPortValue, amodify, except_bind_ok, he, clamp_t_of_valid hs]

/-- Witness for C5: stepping a latch holding state -1 with enable 0 leaves
the state at -1 and publishes it. -/
theorem tlatch_spec_witness :
    compStep (latchWith 1 0 (-1) 0) = .ok (latchWith 1 0 (-1) (-1)) := by
  have h := tlatch_spec.1 1 0 (-1) 0 (by decide) (by decide)
  simpa using h

/-- C8: `Circuit.add` with an already-present id fails with
DuplicateIdError and (being rejected before any mutation) leaves the
circuit unchanged; with a fresh id it appends exactly that component and
changes nothing else. -/
theorem add_spec (c : Circuit) (comp : Component) :
    ((alookup c.components comp.id).isSome = true →
      c.add comp = .error (.duplicateId comp.id)) ∧
    ((alookup c.components comp.id).isSome = false →
      c.add comp =
        .ok { components := c.components ++ [(comp.id, comp)], wires := c.wires }) := by
  constructor <;> intro h <;> simp [Circuit.add, h]

/-- Witness for C8: a fresh insert into the empty circuit succeeds with
exactly one new entry; repeating it fails with DuplicateIdError. -/
theorem add_spec_witness :
    Circuit.empty.add (mkProbe "p") =
      .ok { components := [("p", mkProbe "p")], wires := [] } ∧
    (Circuit.mk [("p", mkProbe "p")] []).add (mkProbe "p") =
      .error (.duplicateId "p") :=
  ⟨(add_spec Circuit.empty (mkProbe "p")).2 (by decide),
   (add_spec (Circuit.mk [("p", mkProbe "p")] []) (mkProbe "p")).1 (by decide)⟩

theorem alookup_addDriver_self (acc : List ((String × String) × List Int))
    (k : String × String) (v : Int) :
    alookup (addDriver acc k v) k = some ((alookup acc k).getD [] ++ [v]) := by
  induction acc with
  | nil => simp [addDriver, alookup]
  | cons e rest ih =>
      by_cases h : e.1 = k <;> simp [addDriver, alookup, h, ih]

theorem alookup_addDriver_ne (acc : List ((String × String) × List Int))
    (k k' : String × String) (v : Int) (h : k' ≠ k) :
    alookup (addDriver acc k v) k' = alookup acc k' := by
  induction acc with
  | nil => simp [addDriver, alookup, Ne.symm h]
  | cons e rest ih =>
      by_cases h1 : e.1 = k
      · by_cases h2 : e.1 = k'
        · exact absurd (h2.symm.trans h1) h
        · simp [addDriver, alookup, h1, h2, Ne.symm h]
      · by_cases h2 : e.1 = k' <;>
          simp [addDriver, alookup, h1, h2, h, Ne.symm h, ih]

theorem dstvals_cons (comps : List (String × Component)) (w : Wire)
    (ws : List Wire) (k : String × String) :
    dstvals comps (w :: ws) k =
      if (w.dst_comp, w.dst_port) = k then srcVal comps w :: dstvals comps ws k
      else dstvals comps ws k := by
  by_cases h : (w.dst_comp, w.dst_port) = k <;> simp [dstvals, h]

theorem gather_ok_iff (comps : List (String × Component)) (ws : List Wire) :
    ∀ acc, (isOkE (gather comps ws acc) = true ↔
      ∀ w ∈ ws, portExists comps w.src_comp w.src_port = true) := by
  induction ws with
  | nil => intro acc; simp [gather, isOkE]
  | cons w ws ih =>
      intro acc
      cases hc : alookup comps w.src_comp with
      | none => simp [gather, hc, isOkE, portExists]
      | some src =>
          cases hp : alookup src.ports w.src_port with
          | none => simp [gather, hc, hp, isOkE, portExists]
          | some p => simp [gather, hc, hp, ih, portExists]

theorem gather_lookup (comps : List (String × Component)) (ws : List Wire) :
    ∀ acc res, gather comps ws acc = .ok res →
      ∀ k, alookup res k = combineDrv (alookup acc k) (dstvals comps ws k) := by
  induction ws with
  | nil =>
      intro acc res h k
      simp [gather] at h
      subst h
      cases halook : alookup acc k <;> simp [dstvals, combineDrv, halook]
  | cons w ws ih =>
      intro acc res h k
      cases hc : alookup comps w.src_comp with
      | none => simp [gather, hc] at h
      | some src =>
          cases hp : alookup src.ports w.src_port with
          | none => simp [gather, hc, hp] at h
          | some p =>
              simp only [gather, hc, hp] at h
              rw [ih _ _ h k, dstvals_cons]
              by_cases hk : (w.dst_comp, w.dst_port) = k
              · rw [if_pos hk, hk, alookup_addDriver_self]
                have hsv : srcVal comps w = p.value := by simp [srcVal, hc, hp]
                rw [hsv]
                cases halook : alookup acc k <;> simp [combineDrv]
              · rw [if_neg hk, alookup_addDriver_ne _ _ _ _ (fun hh => hk hh.symm)]

theorem dstvals_isEmpty (comps : List (String × Component)) (ws : List Wire)
    (k : String × String) :
    (dstvals comps ws k).isEmpty = true ↔ ¬ isDriven ws k := by
  simp [dstvals, isDriven, List.isEmpty_iff, List.filter_eq_nil_iff]

theorem gather_lookup_not_driven (comps : List (String × Component))
    (ws : List Wire) (res : List ((String × String) × List Int))
    (h : gather comps ws [] = .ok res) (k : String × String)
    (hk : ¬ isDriven ws k) : alookup res k = none := by
  rw [gather_lookup comps ws [] res h k]
  simp [alookup, combineDrv, (dstvals_isEmpty comps ws k).2 hk]

theorem gather_lookup_driven (comps : List (String × Component))
    (ws : List Wire) (res : List ((String × String) × List Int))
    (h : gather comps ws [] = .ok res) (k : String × String)
    (hk : isDriven ws k) : alookup res k = some (dstvals comps ws k) := by
  rw [gather_lookup comps ws [] res h k]
  have he : (dstvals comps ws k).isEmpty = false := by
    cases hh : (dstvals comps ws k).isEmpty
    · rfl
    · exact absurd ((dstvals_isEmpty comps ws k).1 hh) (fun hx => hx hk)
  simp [alookup, combineDrv, he]

theorem akeys_nil {α β : Type} : akeys ([] : List (α × β)) = [] := rfl

theorem akeys_cons {α β : Type} (e : α × β) (l : List (α × β)) :
    akeys (e :: l) = e.1 :: akeys l := rfl

theorem akeys_addDriver (acc : List ((String × String) × List Int))
    (k : String × String) (v : Int) :
    akeys (addDriver acc k v) =
      if k ∈ akeys acc then akeys acc else akeys acc ++ [k] := by
  induction acc with
  | nil => simp [addDriver, akeys_cons, akeys_nil]
  | cons e rest ih =>
      by_cases h : e.1 = k
      · simp [addDriver, akeys_cons, h]
      · have hne : ¬k = e.1 := fun hh => h hh.symm
        by_cases h2 : k ∈ akeys rest <;>
          simp [addDriver, akeys_cons, h, hne, h2, ih]

theorem keysNodup_addDriver (acc : List ((String × String) × List Int))
    (k : String × String) (v : Int) (h : keysNodup acc) :
    keysNodup (addDriver acc k v) := by
  unfold keysNodup at *
  rw [akeys_addDriver]
  by_cases hm : k ∈ akeys acc
  · simp [hm, h]
  · simp [List.nodup_append, hm, h]

theorem gather_keysNodup (comps : List (String × Component)) (ws : List Wire) :
    ∀ acc res, keysNodup acc → gather comps ws acc = .ok res → keysNodup res := by
  induction ws with
  | nil =>
      intro acc res hnd h
      simp [gather] at h
      subst h
      exact hnd
  | cons w ws ih =>
      intro acc res hnd h
      cases hc : alookup comps w.src_comp with
      | none => simp [gather, hc] at h
      | some src =>
          cases hp : alookup src.ports w.src_port with
          | none => simp [gather, hc, hp] at h
          | some p =>
              simp only [gather, hc, hp] at h
              exact ih _ _ (keysNodup_addDriver _ _ _ hnd) h

theorem alookup_isSome_of_mem_akeys {α β : Type} [DecidableEq α]
    (l : List (α × β)) (k : α) (hk : k ∈ akeys l) :
    (alookup l k).isSome = true := by
  induction l with
  | nil => simp [akeys_nil] at hk
  | cons e rest ih =>
      by_cases h : e.1 = k
      · simp [alookup, h]
      · simp [akeys_cons, show ¬k = e.1 from fun hh => h hh.symm] at hk
        simp [alookup, h, ih hk]

theorem gather_keys_driven (comps : List (String × Component)) (ws : List Wire)
    (res : List ((String × String) × List Int)) (h : gather comps ws [] = .ok res)
    (k : String × String) (hk : k ∈ akeys res) : isDriven ws k := by
  by_contra hnd
  have hnone := gather_lookup_not_driven comps ws res h k hnd
  have hsome := alookup_isSome_of_mem_akeys res k hk
  rw [hnone] at hsome
  exact absurd hsome (by simp)

theorem alookup_eq_none_of_not_mem_akeys {α β : Type} [DecidableEq α]
    (l : List (α × β)) (k : α) (hk : ¬ k ∈ akeys l) : alookup l k = none := by
  induction l with
  | nil => rfl
  | cons e rest ih =>
      simp [akeys_cons] at hk
      simp [alookup, show ¬e.1 = k from fun hh => hk.1 hh.symm, ih hk.2]

theorem compShape_setPorts (c : Component) (n : String) (v : Int) :
    compShape { c with ports := setPortValue c.ports n v } = compShape c := by
  simp [compShape, portSig_setPortValue]

theorem compsShape_amodify (comps : List (String × Component)) (cid : String)
    (f : Component → Component) (hf : ∀ c, compShape (f c) = compShape c) :
    compsShape (amodify comps cid f) = compsShape comps := by
  unfold compsShape amodify
  rw [List.map_map]
  apply List.map_congr_left
  intro e _
  by_cases h : e.1 = cid <;> simp [h, hf]

theorem writeInputs_shape :
    ∀ (items : List ((String × String) × List Int)) (comps res : List (String × Component)),
      writeInputs comps items = .ok res → compsShape res = compsShape comps := by
  intro items
  induction items with
  | nil =>
      intro comps res h
      simp [writeInputs] at h
      rw [h]
  | cons it rest ih =>
      intro comps res h
      obtain ⟨k, drivers⟩ := it
      cases hc : alookup comps k.1 with
      | none => simp [writeInputs, hc] at h
      | some comp =>
          cases hp : (alookup comp.ports k.2).isSome with
          | false => simp [writeInputs, hc, hp] at h
          | true =>
              simp only [writeInputs, hc, hp, if_true] at h
              rw [ih _ _ h]
              exact compsShape_amodify _ _ _ (fun c => compShape_setPorts c k.2 _)

theorem compsPortValue_write (comps : List (String × Component)) (cid pname : String)
    (v : Int) (k : String × String) :
    compsPortValue
        (amodify comps cid
          (fun cc => { cc with ports := setPortValue cc.ports pname v })) k =
      if k.1 = cid ∧ k.2 = pname then (compsPortValue comps k).map (fun _ => v)
      else compsPortValue comps k := by
  unfold compsPortValue
  rw [alookup_amodify]
  by_cases h1 : k.1 = cid
  · cases hc : alookup comps k.1 with
    | none => simp [h1, hc]
    | some comp =>
        by_cases h2 : k.2 = pname
        · simp [h1, h2, hc, alookup_setPortValue]
          cases alookup comp.ports pname <;> simp
        · simp [h1, h2, hc, alookup_setPortValue]
  · have : ¬(k.1 = cid ∧ k.2 = pname) := fun hh => h1 hh.1
    simp [h1, this]

theorem writeInputs_value_not_mem :
    ∀ (items : List ((String × String) × List Int)) (comps res : List (String × Component)),
      writeInputs comps items = .ok res →
      ∀ k, alookup items k = none → compsPortValue res k = compsPortValue comps k := by
  intro items
  induction items with
  | nil =>
      intro comps res h k _
      simp [writeInputs] at h
      rw [h]
  | cons it rest ih =>
      intro comps res h k hk
      obtain ⟨k0, drivers⟩ := it
      have hkk : ¬(k0 = k) := by
        intro hh
        simp [alookup, hh] at hk
      have hkrest : alookup rest k = none := by
        simpa [alookup, hkk] using hk
      cases hc : alookup comps k0.1 with
      | none => simp [writeInputs, hc] at h
      | some comp =>
          cases hp : (alookup comp.ports k0.2).isSome with
          | false => simp [writeInputs, hc, hp] at h
          | true =>
              simp only [writeInputs, hc, hp, if_true] at h
              rw [ih _ _ h k hkrest, compsPortValue_write]
              have : ¬(k.1 = k0.1 ∧ k.2 = k0.2) := by
                intro hh
                exact hkk (Prod.ext hh.1.symm hh.2.symm)
              simp [this]

theorem writeInputs_value_mem :
    ∀ (items : List ((String × String) × List Int)) (comps res : List (String × Component)),
      writeInputs comps items = .ok res → keysNodup items →
      ∀ k l, alookup items k = some l →
        compsPortValue res k = (compsPortValue comps k).map (fun _ => resolve_wire l) := by
  intro items
  induction items with
  | nil => intro comps res h hnd k l hk; simp [alookup] at hk
  | cons it rest ih =>
      intro comps res h hnd k l hk
      obtain ⟨k0, drivers⟩ := it
      cases hc : alookup comps k0.1 with
      | none => simp [writeInputs, hc] at h
      | some comp =>
          cases hp : (alookup comp.ports k0.2).isSome with
          | false => simp [writeInputs, hc, hp] at h
          | true =>
              simp only [writeInputs, hc, hp, if_true] at h
              by_cases hkk : k0 = k
              · subst hkk
                have hl : l = drivers := by
                  simp [alookup] at hk
                  exact hk.symm
                subst hl
                have hnotin : alookup rest k0 = none := by
                  apply alookup_eq_none_of_not_mem_akeys
                  have := hnd
                  unfold keysNodup at this
                  simp [akeys_cons] at this
                  exact this.1
                rw [writeInputs_value_not_mem rest _ _ h k0 hnotin,
                  compsPortValue_write]
                simp
              · have hkrest : alookup rest k = some l := by
                  simpa [alookup, hkk] using hk
                have hndrest : keysNodup rest := by
                  unfold keysNodup at hnd ⊢
                  simp [akeys_cons] at hnd
                  exact hnd.2
                rw [ih _ _ h hndrest k l hkrest, compsPortValue_write]
                have : ¬(k.1 = k0.1 ∧ k.2 = k0.2) := by
                  intro hh
                  exact hkk (Prod.ext hh.1 hh.2).symm
                simp [this]

theorem alookup_isSome_portSig :
    ∀ (ps ps' : List (String × Port)), portSig ps = portSig ps' →
      ∀ n, (alookup ps n).isSome = (alookup ps' n).isSome := by
  intro ps
  induction ps with
  | nil =>
      intro ps' h n
      cases ps' with
      | nil => rfl
      | cons e' rest' => simp [portSig] at h
  | cons e rest ih =>
      intro ps' h n
      cases ps' with
      | nil => simp [portSig] at h
      | cons e' rest' =>
          simp only [portSig, List.map_cons, List.cons.injEq] at h
          obtain ⟨hhead, hrest⟩ := h
          have hk : e.1 = e'.1 := (Prod.mk.inj hhead).1
          by_cases hn : e.1 = n
          · simp [alookup, hn, hk ▸ hn]
          · have hn' : ¬e'.1 = n := fun hh => hn (hk ▸ hh)
            simpa [alookup, hn, hn'] using ih rest' hrest n

theorem alookup_shape :
    ∀ (comps comps' : List (String × Component)),
      compsShape comps = compsShape comps' →
      ∀ cid, (alookup comps cid).map compShape = (alookup comps' cid).map compShape := by
  intro comps
  induction comps with
  | nil =>
      intro comps' h cid
      cases comps' with
      | nil => rfl
      | cons e' rest' => simp [compsShape] at h
  | cons e rest ih =>
      intro comps' h cid
      cases comps' with
      | nil => simp [compsShape] at h
      | cons e' rest' =>
          simp only [compsShape, List.map_cons, List.cons.injEq] at h
          obtain ⟨hhead, hrest⟩ := h
          have hk : e.1 = e'.1 := (Prod.mk.inj hhead).1
          have hsh : compShape e.2 = compShape e'.2 := (Prod.mk.inj hhead).2
          by_cases hn : e.1 = cid
          · simp [alookup, hn, hk ▸ hn, hsh]
          · have hn' : ¬e'.1 = cid := fun hh => hn (hk ▸ hh)
            simpa [alookup, hn, hn'] using ih rest' hrest cid

theorem portExists_shape (comps comps' : List (String × Component))
    (h : compsShape comps = compsShape comps') (cid p : String) :
    portExists comps cid p = portExists comps' cid p := by
  unfold portExists
  have hmap := alookup_shape comps comps' h cid
  cases h1 : alookup comps cid with
  | none =>
      cases h2 : alookup comps' cid with
      | none => rfl
      | some c' => simp [h1, h2] at hmap
  | some c =>
      cases h2 : alookup comps' cid with
      | none => simp [h1, h2] at hmap
      | some c' =>
          simp [h1, h2] at hmap
          have hps : portSig c.ports = portSig c'.ports := by
            have := congrArg (fun q => q.2.2.2) hmap
            simpa [compShape] using this
          exact alookup_isSome_portSig c.ports c'.ports hps p

theorem writeInputs_ok_iff :
    ∀ (items : List ((String × String) × List Int)) (comps : List (String × Component)),
      isOkE (writeInputs comps items) = true ↔
        ∀ it ∈ items, portExists comps it.1.1 it.1.2 = true := by
  intro items
  induction items with
  | nil => intro comps; simp [writeInputs, isOkE]
  | cons it rest ih =>
      intro comps
      obtain ⟨k0, drivers⟩ := it
      cases hc : alookup comps k0.1 with
      | none =>
          simp [writeInputs, hc, isOkE, portExists]
      | some comp =>
          cases hp : (alookup comp.ports k0.2).isSome with
          | false =>
              simp [writeInputs, hc, hp, isOkE, portExists]
          | true =>
              simp only [writeInputs, hc, hp, if_true]
              have hshape : compsShape
                  (amodify comps k0.1
                    (fun cc => { cc with
                      ports := setPortValue cc.ports k0.2 (resolve_wire drivers) })) =
                  compsShape comps :=
                compsShape_amodify _ _ _ (fun c => compShape_setPorts c k0.2 _)
              have hex : ∀ cid p, portExists
                  (amodify comps k0.1
                    (fun cc => { cc with
                      ports := setPortValue cc.ports k0.2 (resolve_wire drivers) })) cid p =
                  portExists comps cid p :=
                fun cid p => portExists_shape _ _ hshape cid p
              rw [ih]
              constructor
              · intro hall
                intro it hit
                rcases List.mem_cons.1 hit with hh | hh
                · rw [hh]
                  simp [portExists, hc, hp]
                · rw [← hex it.1.1 it.1.2]
                  exact hall it hh
              · intro hall it hit
                rw [hex it.1.1 it.1.2]
                exact hall it (List.mem_cons_of_mem _ hit)

theorem stepAll_ok_iff :
    ∀ comps : List (String × Component),
      isOkE (stepAll comps) = true ↔ ∀ e ∈ comps, isOkE (compStep e.2) = true := by
  intro comps
  induction comps with
  | nil => simp [stepAll, isOkE]
  | cons e rest ih =>
      obtain ⟨k, c⟩ := e
      cases hc : compStep c with
      | error err =>
          constructor
          · intro h
            simp [stepAll, hc, except_bind_error, isOkE] at h
          · intro hall
            have := hall (k, c) (List.mem_cons_self _ _)
            simp [hc, isOkE] at this
      | ok c2 =>
          simp only [stepAll, hc, except_bind_ok]
          cases hr : stepAll rest with
          | error err =>
              constructor
              · intro h
                simp [hr, except_bind_error, isOkE] at h
              · intro hall
                have hrest : ∀ e ∈ rest, isOkE (compStep e.2) = true :=
                  fun e he => hall e (List.mem_cons_of_mem _ he)
                have := ih.2 hrest
                simp [hr, isOkE] at this
          | ok rest2 =>
              simp only [hr, except_bind_ok]
              constructor
              · intro _ e he
                rcases List.mem_cons.1 he with hh | hh
                · rw [hh]
                  simp [hc, isOkE]
                · exact ih.1 (by simp [hr, isOkE]) e hh
              · intro _
                simp [isOkE]

theorem stepAll_eq :
    ∀ (comps res : List (String × Component)), stepAll comps = .ok res →
      res = comps.map (fun e => (e.1, pstep e.2)) := by
  intro comps
  induction comps with
  | nil =>
      intro res h
      simp [stepAll] at h
      subst h
      simp
  | cons e rest ih =>
      intro res h
      obtain ⟨k, c⟩ := e
      cases hc : compStep c with
      | error err => simp [stepAll, hc, except_bind_error] at h
      | ok c2 =>
          cases hr : stepAll rest with
          | error err =>
              simp [stepAll, hc, hr, except_bind_ok, except_bind_error] at h
          | ok rest2 =>
              simp only [stepAll, hc, hr, except_bind_ok] at h
              have hres := Except.ok.inj h
              rw [← hres, ih rest2 hr]
              simp [pstep, hc]

theorem set_out_ok_inv (c : Component) (n : String) (v : Int) (c2 : Component)
    (h : c.set_out n v = .ok c2) :
    c2 = { c with ports := setPortValue c.ports n (clamp_t v) } ∧
      (alookup c.ports n).isSome = true := by
  unfold Component.set_out at h
  cases hp : (alookup c.ports n).isSome with
  | false => simp [hp] at h
  | true =>
      simp [hp] at h
      exact ⟨h.symm, rfl⟩

theorem get_in_ok_inv (c : Component) (n : String) (x : Int)
    (h : c.get_in n = .ok x) :
    ∃ port, alookup c.ports n = some port ∧ port.value = x := by
  unfold Component.get_in at h
  cases hp : alookup c.ports n with
  | none => simp [hp] at h
  | some port =>
      simp [hp] at h
      exact ⟨port, rfl, h⟩

theorem set_out_struct (c : Component) (n : String) (v : Int) (c2 : Component)
    (h : c.set_out n v = .ok c2) : compStruct c2 = compStruct c := by
  rw [(set_out_ok_inv c n v c2 h).1]
  simp [compStruct, portSig_setPortValue]

theorem compStep_struct (c c' : Component) (h : compStep c = .ok c') :
    compStruct c' = compStruct c := by
  cases hs : c.state with
  | switchBinary v =>
      simp only [compStep, hs] at h
      rw [← Except.ok.inj h]
  | switchTernary v =>
      simp only [compStep, hs] at h
      rw [← Except.ok.inj h]
  | tnot =>
      simp only [compStep, hs] at h
      cases hg : c.get_in "in" with
      | error e => simp [hg, except_bind_error] at h
      | ok x =>
          simp only [hg, except_bind_ok] at h
          exact set_out_struct c "out" (-x) c' h
  | tand =>
      simp only [compStep, hs] at h
      cases hg : c.get_in "in1" with
      | error e => simp [hg, except_bind_error] at h
      | ok a =>
          simp only [hg, except_bind_ok] at h
          cases hg2 : c.get_in "in2" with
          | error e => simp [hg2, except_bind_error] at h
          | ok b =>
              simp only [hg2, except_bind_ok] at h
              exact set_out_struct c "out" (min a b) c' h
  | tnor =>
      simp only [compStep, hs] at h
      cases hg : c.get_in "in1" with
      | error e => simp [hg, except_bind_error] at h
      | ok a =>
          simp only [hg, except_bind_ok] at h
          cases hg2 : c.get_in "in2" with
          | error e => simp [hg2, except_bind_error] at h
          | ok b =>
              simp only [hg2, except_bind_ok] at h
              exact set_out_struct c "out" (-(max a b)) c' h
  | transistor =>
      simp only [compStep, hs] at h
      cases hg : c.get_in "presence" with
      | error e => simp [hg, except_bind_error] at h
      | ok p =>
          simp only [hg, except_bind_ok] at h
          cases hg2 : c.get_in "sign" with
          | error e => simp [hg2, except_bind_error] at h
          | ok sv =>
              simp only [hg2, except_bind_ok] at h
              by_cases hif : p ≠ 0 ∧ sv ≠ 0
              · rw [if_pos hif] at h
                exact set_out_struct c "out" sv c' h
              · rw [if_neg hif] at h
                exact set_out_struct c "out" 0 c' h
  | tlatch st =>
      simp only [compStep, hs] at h
      cases hg : c.get_in "enable" with
      | error e => simp [hg, except_bind_error] at h
      | ok en =>
          simp only [hg, except_bind_ok] at h
          by_cases hen : en = 1
          · rw [if_pos hen] at h
            cases hg2 : c.get_in "in" with
            | error e => simp [hg2, except_bind_error] at h
            | ok inp =>
                simp only [hg2, except_bind_ok] at h
                rw [set_out_struct _ "out" inp c' h]
                simp [compStruct]
          · rw [if_neg hen] at h
            exact set_out_struct c "out" st c' h
  | probe last =>
      simp only [compStep, hs] at h
      cases hg : c.get_in "in" with
      | error e => simp [hg, except_bind_error] at h
      | ok x =>
          simp only [hg, except_bind_ok] at h
          rw [← Except.ok.inj h]
          simp [compStruct]
  | tfulladder =>
      simp only [compStep, hs] at h
      cases hg : c.get_in "ai" with
      | error e => simp [hg, except_bind_error] at h
      | ok a =>
          simp only [hg, except_bind_ok] at h
          cases hg2 : c.get_in "bi" with
          | error e => simp [hg2, except_bind_error] at h
          | ok b =>
              simp only [hg2, except_bind_ok] at h
              cases hg3 : c.get_in "ci" with
              | error e => simp [hg3, except_bind_error] at h
              | ok ci =>
                  simp only [hg3, except_bind_ok] at h
                  cases hso : c.set_out "co"
                      (clamp_t (if pyRound3 (a + b + ci) > 1 then 1
                        else if pyRound3 (a + b + ci) < -1 then -1
                        else pyRound3 (a + b + ci))) with
                  | error e => simp [hso, except_bind_error] at h
                  | ok c2 =>
                      simp only [hso, except_bind_ok] at h
                      rw [set_out_struct _ "so" _ c' h]
                      exact set_out_struct _ "co" _ c2 hso

theorem alookup_mem {α β : Type} [DecidableEq α] (l : List (α × β)) (k : α)
    (v : β) (h : alookup l k = some v) : (k, v) ∈ l := by
  induction l with
  | nil => simp [alookup] at h
  | cons e rest ih =>
      by_cases he : e.1 = k
      · simp [alookup, he] at h
        subst h
        subst he
        exact List.mem_cons_self _ _
      · simp [alookup, he] at h
        exact List.mem_cons_of_mem _ (ih h)

theorem setPortValue_valid (ps : List (String × Port)) (n : String) (v : Int)
    (hps : ∀ e ∈ ps, validTrit e.2.value) (hv : validTrit v) :
    ∀ e ∈ setPortValue ps n v, validTrit e.2.value := by
  intro e he
  unfold setPortValue amodify at he
  obtain ⟨e0, he0, heq⟩ := List.mem_map.1 he
  by_cases h : e0.1 = n
  · rw [← heq]
    simp [h, hv]
  · rw [← heq]
    simp [h]
    exact hps e0 he0

theorem set_out_valid (c : Component) (n : String) (v : Int) (c2 : Component)
    (h : c.set_out n v = .ok c2) (hc : ∀ e ∈ c.ports, validTrit e.2.value) :
    (∀ e ∈ c2.ports, validTrit e.2.value) ∧ c2.state = c.state := by
  rw [(set_out_ok_inv c n v c2 h).1]
  exact ⟨setPortValue_valid c.ports n (clamp_t v) hc (clamp_t_valid v), rfl⟩

theorem compStep_valid (c c' : Component) (h : compStep c = .ok c')
    (hv : c.valid) : c'.valid := by
  obtain ⟨hports, hstate⟩ := hv
  cases hs : c.state with
  | switchBinary v =>
      simp only [compStep, hs] at h
      rw [← Except.ok.inj h]
      exact ⟨hports, hs ▸ hstate⟩
  | switchTernary v =>
      simp only [compStep, hs] at h
      rw [← Except.ok.inj h]
      exact ⟨hports, hs ▸ hstate⟩
  | tnot =>
      simp only [compStep, hs] at h
      cases hg : c.get_in "in" with
      | error e => simp [hg, except_bind_error] at h
      | ok x =>
          simp only [hg, except_bind_ok] at h
          obtain ⟨hp, hst⟩ := set_out_valid _ _ _ _ h hports
          exact ⟨hp, by rw [hst, hs]; trivial⟩
  | tand =>
      simp only [compStep, hs] at h
      cases hg : c.get_in "in1" with
      | error e => simp [hg, except_bind_error] at h
      | ok a =>
          simp only [hg, except_bind_ok] at h
          cases hg2 : c.get_in "in2" with
          | error e => simp [hg2, except_bind_error] at h
          | ok b =>
              simp only [hg2, except_bind_ok] at h
              obtain ⟨hp, hst⟩ := set_out_valid _ _ _ _ h hports
              exact ⟨hp, by rw [hst, hs]; trivial⟩
  | tnor =>
      simp only [compStep, hs] at h
      cases hg : c.get_in "in1" with
      | error e => simp [hg, except_bind_error] at h
      | ok a =>
          simp only [hg, except_bind_ok] at h
          cases hg2 : c.get_in "in2" with
          | error e => simp [hg2, except_bind_error] at h
          | ok b =>
              simp only [hg2, except_bind_ok] at h
              obtain ⟨hp, hst⟩ := set_out_valid _ _ _ _ h hports
              exact ⟨hp, by rw [hst, hs]; trivial⟩
  | transistor =>
      simp only [compStep, hs] at h
      cases hg : c.get_in "presence" with
      | error e => simp [hg, except_bind_error] at h
      | ok p =>
          simp only [hg, except_bind_ok] at h
          cases hg2 : c.get_in "sign" with
          | error e => simp [hg2, except_bind_error] at h
          | ok sv =>
              simp only [hg2, except_bind_ok] at h
              by_cases hif : p ≠ 0 ∧ sv ≠ 0
              · rw [if_pos hif] at h
                obtain ⟨hp, hst⟩ := set_out_valid _ _ _ _ h hports
                exact ⟨hp, by rw [hst, hs]; trivial⟩
              · rw [if_neg hif] at h
                obtain ⟨hp, hst⟩ := set_out_valid _ _ _ _ h hports
                exact ⟨hp, by rw [hst, hs]; trivial⟩
  | tlatch st =>
      simp only [compStep, hs] at h
      cases hg : c.get_in "enable" with
      | error e => simp [hg, except_bind_error] at h
      | ok en =>
          simp only [hg, except_bind_ok] at h
          by_cases hen : en = 1
          · rw [if_pos hen] at h
            cases hg2 : c.get_in "in" with
            | error e => simp [hg2, except_bind_error] at h
            | ok inp =>
                simp only [hg2, except_bind_ok] at h
                obtain ⟨port, hport, hpv⟩ := get_in_ok_inv c "in" inp hg2
                have hinp : validTrit inp := by
                  rw [← hpv]
                  exact hports _ (alookup_mem _ _ _ hport)
                obtain ⟨hp, hst⟩ := set_out_valid _ _ _ _ h hports
                refine ⟨hp, ?_⟩
                rw [hst]
                simpa [stateValid] using hinp
          · rw [if_neg hen] at h
            obtain ⟨hp, hst⟩ := set_out_valid _ _ _ _ h hports
            refine ⟨hp, ?_⟩
            rw [hst, hs]
            simpa [stateValid] using (hs ▸ hstate : stateValid (.tlatch st))
  | probe last =>
      simp only [compStep, hs] at h
      cases hg : c.get_in "in" with
      | error e => simp [hg, except_bind_error] at h
      | ok x =>
          simp only [hg, except_bind_ok] at h
          obtain ⟨port, hport, hpv⟩ := get_in_ok_inv c "in" x hg
          have hx : validTrit x := by
            rw [← hpv]
            exact hports _ (alookup_mem _ _ _ hport)
          rw [← Except.ok.inj h]
          exact ⟨hports, by simpa [stateValid] using hx⟩
  | tfulladder =>
      simp only [compStep, hs] at h
      cases hg : c.get_in "ai" with
      | error e => simp [hg, except_bind_error] at h
      | ok a =>
          simp only [hg, except_bind_ok] at h
          cases hg2 : c.get_in "bi" with
          | error e => simp [hg2, except_bind_error] at h
          | ok b =>
              simp only [hg2, except_bind_ok] at h
              cases hg3 : c.get_in "ci" with
              | error e => simp [hg3, except_bind_error] at h
              | ok ci =>
                  simp only [hg3, except_bind_ok] at h
                  cases hso : c.set_out "co"
                      (clamp_t (if pyRound3 (a + b + ci) > 1 then 1
                        else if pyRound3 (a + b + ci) < -1 then -1
                        else pyRound3 (a + b + ci))) with
                  | error e => simp [hso, except_bind_error] at h
                  | ok c2 =>
                      simp only [hso, except_bind_ok] at h
                      obtain ⟨hp2, hst2⟩ := set_out_valid _ _ _ _ hso hports
                      obtain ⟨hp, hst⟩ := set_out_valid _ _ _ _ h hp2
                      refine ⟨hp, ?_⟩
                      rw [hst, hst2, hs]
                      trivial

theorem mem_portSig_of_alookup (ps : List (String × Port)) (p : String)
    (port : Port) (h : alookup ps p = some port) :
    (p, port.id, port.direction) ∈ portSig ps := by
  induction ps with
  | nil => simp [alookup] at h
  | cons e rest ih =>
      by_cases he : e.1 = p
      · simp [alookup, he] at h
        subst h
        subst he
        simp [portSig]
      · simp [alookup, he] at h
        simp only [portSig, List.map_cons]
        exact List.mem_cons_of_mem _ (by simpa [portSig] using ih h)

theorem alookup_isSome_sig (ps : List (String × Port)) (p pid dir : String)
    (h : (p, pid, dir) ∈ portSig ps) : (alookup ps p).isSome = true := by
  induction ps with
  | nil => simp [portSig] at h
  | cons e rest ih =>
      simp only [portSig, List.map_cons] at h
      rcases List.mem_cons.1 h with hh | hh
      · have : e.1 = p := (Prod.mk.inj hh.symm).1
        simp [alookup, this]
      · by_cases he : e.1 = p
        · simp [alookup, he]
        · simp only [alookup, he, if_false]
          exact ih (by simpa [portSig] using hh)

theorem get_in_ok_of_sig (c : Component) (n pid dir : String)
    (h : (n, pid, dir) ∈ portSig c.ports) : ∃ x, c.get_in n = .ok x := by
  have hsome := alookup_isSome_sig c.ports n pid dir h
  cases hp : alookup c.ports n with
  | none => rw [hp] at hsome; simp at hsome
  | some port => exact ⟨port.value, by simp [Component.get_in, hp]⟩

theorem set_out_ok_of_sig (c : Component) (n pid dir : String) (v : Int)
    (h : (n, pid, dir) ∈ portSig c.ports) : ∃ c2, c.set_out n v = .ok c2 := by
  have hsome := alookup_isSome_sig c.ports n pid dir h
  refine ⟨{ c with ports := setPortValue c.ports n (clamp_t v) }, ?_⟩
  simp [Component.set_out, hsome]

theorem compStep_ports_outside (c c' : Component) (h : compStep c = .ok c')
    (p : String) (hp1 : p ≠ "out") (hp2 : p ≠ "so") (hp3 : p ≠ "co") :
    alookup c'.ports p = alookup c.ports p := by
  have hso : ∀ (cc c2 : Component) (n : String) (v : Int), n = "out" ∨ n = "so" ∨ n = "co" →
      cc.set_out n v = .ok c2 → cc.ports = c.ports → alookup c2.ports p = alookup c.ports p := by
    intro cc c2 n v hn hok hports
    rw [(set_out_ok_inv cc n v c2 hok).1]
    have hpn : ¬p = n := by
      rcases hn with rfl | rfl | rfl
      · exact hp1
      · exact hp2
      · exact hp3
    simp [alookup_setPortValue, hpn, hports]
  cases hs : c.state with
  | switchBinary v =>
      simp only [compStep, hs] at h
      rw [← Except.ok.inj h]
  | switchTernary v =>
      simp only [compStep, hs] at h
      rw [← Except.ok.inj h]
  | tnot =>
      simp only [compStep, hs] at h
      cases hg : c.get_in "in" with
      | error e => simp [hg, except_bind_error] at h
      | ok x =>
          simp only [hg, except_bind_ok] at h
          exact hso c c' "out" _ (Or.inl rfl) h rfl
  | tand =>
      simp only [compStep, hs] at h
      cases hg : c.get_in "in1" with
      | error e => simp [hg, except_bind_error] at h
      | ok a =>
          simp only [hg, except_bind_ok] at h
          cases hg2 : c.get_in "in2" with
          | error e => simp [hg2, except_bind_error] at h
          | ok b =>
              simp only [hg2, except_bind_ok] at h
              exact hso c c' "out" _ (Or.inl rfl) h rfl
  | tnor =>
      simp only [compStep, hs] at h
      cases hg : c.get_in "in1" with
      | error e => simp [hg, except_bind_error] at h
      | ok a =>
          simp only [hg, except_bind_ok] at h
          cases hg2 : c.get_in "in2" with
          | error e => simp [hg2, except_bind_error] at h
          | ok b =>
              simp only [hg2, except_bind_ok] at h
              exact hso c c' "out" _ (Or.inl rfl) h rfl
  | transistor =>
      simp only [compStep, hs] at h
      cases hg : c.get_in "presence" with
      | error e => simp [hg, except_bind_error] at h
      | ok pp =>
          simp only [hg, except_bind_ok] at h
          cases hg2 : c.get_in "sign" with
          | error e => simp [hg2, except_bind_error] at h
          | ok sv =>
              simp only [hg2, except_bind_ok] at h
              by_cases hif : pp ≠ 0 ∧ sv ≠ 0
              · rw [if_pos hif] at h
                exact hso c c' "out" _ (Or.inl rfl) h rfl
              · rw [if_neg hif] at h
                exact hso c c' "out" _ (Or.inl rfl) h rfl
  | tlatch st =>
      simp only [compStep, hs] at h
      cases hg : c.get_in "enable" with
      | error e => simp [hg, except_bind_error] at h
      | ok en =>
          simp only [hg, except_bind_ok] at h
          by_cases hen : en = 1
          · rw [if_pos hen] at h
            cases hg2 : c.get_in "in" with
            | error e => simp [hg2, except_bind_error] at h
            | ok inp =>
                simp only [hg2, except_bind_ok] at h
                exact hso _ c' "out" _ (Or.inl rfl) h rfl
          · rw [if_neg hen] at h
            exact hso c c' "out" _ (Or.inl rfl) h rfl
  | probe last =>
      simp only [compStep, hs] at h
      cases hg : c.get_in "in" with
      | error e => simp [hg, except_bind_error] at h
      | ok x =>
          simp only [hg, except_bind_ok] at h
          rw [← Except.ok.inj h]
  | tfulladder =>
      simp only [compStep, hs] at h
      cases hg : c.get_in "ai" with
      | error e => simp [hg, except_bind_error] at h
      | ok a =>
          simp only [hg, except_bind_ok] at h
          cases hg2 : c.get_in "bi" with
          | error e => simp [hg2, except_bind_error] at h
          | ok b =>
              simp only [hg2, except_bind_ok] at h
              cases hg3 : c.get_in "ci" with
              | error e => simp [hg3, except_bind_error] at h
              | ok ci =>
                  simp only [hg3, except_bind_ok] at h
                  cases hsoc : c.set_out "co"
                      (clamp_t (if pyRound3 (a + b + ci) > 1 then 1
                        else if pyRound3 (a + b + ci) < -1 then -1
                        else pyRound3 (a + b + ci))) with
                  | error e => simp [hsoc, except_bind_error] at h
                  | ok c2 =>
                      simp only [hsoc, except_bind_ok] at h
                      have h2 : alookup c2.ports p = alookup c.ports p :=
                        hso c c2 "co" _ (Or.inr (Or.inr rfl)) hsoc rfl
                      rw [(set_out_ok_inv c2 "so" _ c' h).1]
                      simp [alookup_setPortValue, hp2, h2]

theorem stdSig_in_not_written (s : CompState) (p pid : String)
    (h : (p, pid, "in") ∈ stdSig s) : p ≠ "out" ∧ p ≠ "so" ∧ p ≠ "co" := by
  cases s with
  | switchBinary v => simp [stdSig] at h
  | switchTernary v => simp [stdSig] at h
  | tnot =>
      simp [stdSig] at h
      obtain ⟨rfl, -⟩ := h
      exact ⟨by decide, by decide, by decide⟩
  | tand =>
      simp [stdSig] at h
      rcases h with ⟨rfl, -⟩ | ⟨rfl, -⟩ <;>
        exact ⟨by decide, by decide, by decide⟩
  | tnor =>
      simp [stdSig] at h
      rcases h with ⟨rfl, -⟩ | ⟨rfl, -⟩ <;>
        exact ⟨by decide, by decide, by decide⟩
  | transistor =>
      simp [stdSig] at h
      rcases h with ⟨rfl, -⟩ | ⟨rfl, -⟩ <;>
        exact ⟨by decide, by decide, by decide⟩
  | tlatch st =>
      simp [stdSig] at h
      rcases h with ⟨rfl, -⟩ | ⟨rfl, -⟩ <;>
        exact ⟨by decide, by decide, by decide⟩
  | probe last =>
      simp [stdSig] at h
      obtain ⟨rfl, -⟩ := h
      exact ⟨by decide, by decide, by decide⟩
  | tfulladder =>
      simp [stdSig] at h
      rcases h with ⟨rfl, -⟩ | ⟨rfl, -⟩ | ⟨rfl, -⟩ <;>
        exact ⟨by decide, by decide, by decide⟩

theorem compStep_in_ports (c c' : Component) (hstd : c.std)
    (h : compStep c = .ok c') (p : String) (port : Port)
    (hp : alookup c.ports p = some port) (hdir : port.direction = "in") :
    alookup c'.ports p = some port := by
  have hmem := mem_portSig_of_alookup c.ports p port hp
  unfold Component.std at hstd
  rw [hstd, hdir] at hmem
  obtain ⟨h1, h2, h3⟩ := stdSig_in_not_written c.state p port.id hmem
  rw [compStep_ports_outside c c' h p h1 h2 h3]
  exact hp

theorem compStep_ok_of_std (c : Component) (hstd : c.std) :
    isOkE (compStep c) = true := by
  unfold Component.std at hstd
  cases hs : c.state with
  | switchBinary v => simp [compStep, hs, isOkE]
  | switchTernary v => simp [compStep, hs, isOkE]
  | tnot =>
      rw [hs] at hstd
      obtain ⟨x, hx⟩ := get_in_ok_of_sig c "in" "in" "in" (by rw [hstd]; simp [stdSig])
      obtain ⟨c2, hc2⟩ :=
        set_out_ok_of_sig c "out" "out" "out" (-x) (by rw [hstd]; simp [stdSig])
      simp [compStep, hs, hx, except_bind_ok, hc2, isOkE]
  | tand =>
      rw [hs] at hstd
      obtain ⟨a, ha⟩ := get_in_ok_of_sig c "in1" "in1" "in" (by rw [hstd]; simp [stdSig])
      obtain ⟨b, hb⟩ := get_in_ok_of_sig c "in2" "in2" "in" (by rw [hstd]; simp [stdSig])
      obtain ⟨c2, hc2⟩ :=
        set_out_ok_of_sig c "out" "out" "out" (min a b) (by rw [hstd]; simp [stdSig])
      simp [compStep, hs, ha, hb, except_bind_ok, hc2, isOkE]
  | tnor =>
      rw [hs] at hstd
      obtain ⟨a, ha⟩ := get_in_ok_of_sig c "in1" "in1" "in" (by rw [hstd]; simp [stdSig])
      obtain ⟨b, hb⟩ := get_in_ok_of_sig c "in2" "in2" "in" (by rw [hstd]; simp [stdSig])
      obtain ⟨c2, hc2⟩ :=
        set_out_ok_of_sig c "out" "out" "out" (-(max a b)) (by rw [hstd]; simp [stdSig])
      simp [compStep, hs, ha, hb, except_bind_ok, hc2, isOkE]
  | transistor =>
      rw [hs] at hstd
      obtain ⟨pp, hp⟩ :=
        get_in_ok_of_sig c "presence" "presence" "in" (by rw [hstd]; simp [stdSig])
      obtain ⟨sv, hsv⟩ := get_in_ok_of_sig c "sign" "sign" "in" (by rw [hstd]; simp [stdSig])
      by_cases hif : pp ≠ 0 ∧ sv ≠ 0
      · obtain ⟨c2, hc2⟩ :=
          set_out_ok_of_sig c "out" "out" "out" sv (by rw [hstd]; simp [stdSig])
        simp [compStep, hs, hp, hsv, except_bind_ok, hif, hc2, isOkE]
      · obtain ⟨c2, hc2⟩ :=
          set_out_ok_of_sig c "out" "out" "out" 0 (by rw [hstd]; simp [stdSig])
        simp [compStep, hs, hp, hsv, except_bind_ok, hif, hc2, isOkE]
  | tlatch st =>
      rw [hs] at hstd
      obtain ⟨en, hen⟩ :=
        get_in_ok_of_sig c "enable" "enable" "in" (by rw [hstd]; simp [stdSig])
      by_cases he1 : en = 1
      · obtain ⟨inp, hinp⟩ := get_in_ok_of_sig c "in" "in" "in" (by rw [hstd]; simp [stdSig])
        obtain ⟨c2, hc2⟩ :=
          set_out_ok_of_sig { c with state := CompState.tlatch inp } "out" "out" "out" inp
            (by rw [show ({ c with state := CompState.tlatch inp } : Component).ports = c.ports from rfl, hstd]; simp [stdSig])
        simp [compStep, hs, hen, he1, hinp, except_bind_ok, hc2, isOkE]
      · obtain ⟨c2, hc2⟩ :=
          set_out_ok_of_sig c "out" "out" "out" st (by rw [hstd]; simp [stdSig])
        simp [compStep, hs, hen, he1, except_bind_ok, hc2, isOkE]
  | probe last =>
      rw [hs] at hstd
      obtain ⟨x, hx⟩ := get_in_ok_of_sig c "in" "in" "in" (by rw [hstd]; simp [stdSig])
      simp [compStep, hs, hx, except_bind_ok, isOkE]
  | tfulladder =>
      rw [hs] at hstd
      obtain ⟨a, ha⟩ := get_in_ok_of_sig c "ai" "ai" "in" (by rw [hstd]; simp [stdSig])
      obtain ⟨b, hb⟩ := get_in_ok_of_sig c "bi" "bi" "in" (by rw [hstd]; simp [stdSig])
      obtain ⟨ci, hci⟩ := get_in_ok_of_sig c "ci" "ci" "in" (by rw [hstd]; simp [stdSig])
      obtain ⟨c2, hc2⟩ := set_out_ok_of_sig c "co" "co" "out"
        (clamp_t (if pyRound3 (a + b + ci) > 1 then 1
          else if pyRound3 (a + b + ci) < -1 then -1 else pyRound3 (a + b + ci)))
        (by rw [hstd]; simp [stdSig])
      have hsig2 : portSig c2.ports = portSig c.ports := by
        rw [(set_out_ok_inv _ _ _ _ hc2).1]
        simp [portSig_setPortValue]
      obtain ⟨c3, hc3⟩ := set_out_ok_of_sig c2 "so" "so" "out"
        (clamp_t (a + b + ci - 3 * (if pyRound3 (a + b + ci) > 1 then 1
          else if pyRound3 (a + b + ci) < -1 then -1 else pyRound3 (a + b + ci))))
        (by rw [hsig2, hstd]; simp [stdSig])
      simp only [compStep, hs, ha, hb, hci, except_bind_ok, hc2, hc3]
      simp [isOkE]

theorem portValue_eq_portOf (c : Circuit) (cid pname : String) :
    portValue c cid pname = (portOf c cid pname).map (·.value) := by
  unfold portValue portOf compsPortOf
  cases alookup c.components cid <;> simp

theorem compsPortOf_write (comps : List (String × Component)) (cid pname : String)
    (v : Int) (k : String × String) :
    compsPortOf
        (amodify comps cid
          (fun cc => { cc with ports := setPortValue cc.ports pname v })) k =
      if k.1 = cid ∧ k.2 = pname then
        (compsPortOf comps k).map (fun p => { p with value := v })
      else compsPortOf comps k := by
  unfold compsPortOf
  rw [alookup_amodify]
  by_cases h1 : k.1 = cid
  · cases hc : alookup comps k.1 with
    | none => simp [h1, hc]
    | some comp =>
        by_cases h2 : k.2 = pname
        · simp [h1, h2, hc, alookup_setPortValue]
        · simp [h1, h2, hc, alookup_setPortValue]
  · have hno : ¬(k.1 = cid ∧ k.2 = pname) := fun hh => h1 hh.1
    simp [h1, hno]

theorem writeInputs_portOf_not_mem :
    ∀ (items : List ((String × String) × List Int)) (comps res : List (String × Component)),
      writeInputs comps items = .ok res →
      ∀ k, alookup items k = none → compsPortOf res k = compsPortOf comps k := by
  intro items
  induction items with
  | nil =>
      intro comps res h k _
      simp [writeInputs] at h
      rw [h]
  | cons it rest ih =>
      intro comps res h k hk
      obtain ⟨k0, drivers⟩ := it
      have hkk : ¬(k0 = k) := by
        intro hh
        simp [alookup, hh] at hk
      have hkrest : alookup rest k = none := by
        simpa [alookup, hkk] using hk
      cases hc : alookup comps k0.1 with
      | none => simp [writeInputs, hc] at h
      | some comp =>
          cases hp : (alookup comp.ports k0.2).isSome with
          | false => simp [writeInputs, hc, hp] at h
          | true =>
              simp only [writeInputs, hc, hp, if_true] at h
              rw [ih _ _ h k hkrest, compsPortOf_write]
              have : ¬(k.1 = k0.1 ∧ k.2 = k0.2) := by
                intro hh
                exact hkk (Prod.ext hh.1.symm hh.2.symm)
              simp [this]

theorem writeInputs_portOf_mem :
    ∀ (items : List ((String × String) × List Int)) (comps res : List (String × Component)),
      writeInputs comps items = .ok res → keysNodup items →
      ∀ k l, alookup items k = some l →
        compsPortOf res k =
          (compsPortOf comps k).map (fun p => { p with value := resolve_wire l }) := by
  intro items
  induction items with
  | nil => intro comps res h hnd k l hk; simp [alookup] at hk
  | cons it rest ih =>
      intro comps res h hnd k l hk
      obtain ⟨k0, drivers⟩ := it
      cases hc : alookup comps k0.1 with
      | none => simp [writeInputs, hc] at h
      | some comp =>
          cases hp : (alookup comp.ports k0.2).isSome with
          | false => simp [writeInputs, hc, hp] at h
          | true =>
              simp only [writeInputs, hc, hp, if_true] at h
              by_cases hkk : k0 = k
              · subst hkk
                have hl : l = drivers := by
                  simp [alookup] at hk
                  exact hk.symm
                subst hl
                have hnotin : alookup rest k0 = none := by
                  apply alookup_eq_none_of_not_mem_akeys
                  have hnd2 := hnd
                  unfold keysNodup at hnd2
                  simp [akeys_cons] at hnd2
                  exact hnd2.1
                rw [writeInputs_portOf_not_mem rest _ _ h k0 hnotin,
                  compsPortOf_write]
                simp
              · have hkrest : alookup rest k = some l := by
                  simpa [alookup, hkk] using hk
                have hndrest : keysNodup rest := by
                  unfold keysNodup at hnd ⊢
                  simp [akeys_cons] at hnd
                  exact hnd.2
                rw [ih _ _ h hndrest k l hkrest, compsPortOf_write]
                have : ¬(k.1 = k0.1 ∧ k.2 = k0.2) := by
                  intro hh
                  exact hkk (Prod.ext hh.1 hh.2).symm
                simp [this]

theorem alookup_map_pstep (comps : List (String × Component)) (cid : String) :
    alookup (comps.map (fun e => (e.1, pstep e.2))) cid =
      (alookup comps cid).map pstep := by
  induction comps with
  | nil => rfl
  | cons e rest ih =>
      by_cases h : e.1 = cid <;> simp [alookup, h, ih]

theorem std_of_shape (comps comps' : List (String × Component))
    (h : compsShape comps = compsShape comps')
    (hstd : ∀ e ∈ comps, Component.std e.2) :
    ∀ e ∈ comps', Component.std e.2 := by
  intro e' he'
  have hmem : (e'.1, compShape e'.2) ∈ compsShape comps' := by
    unfold compsShape
    exact List.mem_map.2 ⟨e', he', rfl⟩
  rw [← h] at hmem
  unfold compsShape at hmem
  obtain ⟨e, he, heq⟩ := List.mem_map.1 hmem
  have hsh : compShape e.2 = compShape e'.2 := (Prod.mk.inj heq).2
  have hst := hstd e he
  unfold Component.std at *
  have hps : portSig e.2.ports = portSig e'.2.ports := by
    have := congrArg (fun q => q.2.2.2) hsh
    simpa [compShape] using this
  have hstate : e.2.state = e'.2.state := by
    have := congrArg (fun q => q.2.2.1) hsh
    simpa [compShape] using this
  rw [← hps, ← hstate]
  exact hst

theorem step_pipeline (c : Circuit)
    (hstd : ∀ e ∈ c.components, Component.std e.2)
    (hvalid : ∀ w ∈ c.wires, wireValid c.components w) :
    ∃ items comps2,
      gather c.components c.wires [] = .ok items ∧
      writeInputs c.components items = .ok comps2 ∧
      stepAll comps2 = .ok (comps2.map (fun e => (e.1, pstep e.2))) ∧
      c.step = .ok { components := comps2.map (fun e => (e.1, pstep e.2)),
                     wires := c.wires } ∧
      keysNodup items ∧ compsShape comps2 = compsShape c.components := by
  have hgok : isOkE (gather c.components c.wires []) = true :=
    (gather_ok_iff c.components c.wires []).2 (fun w hw => (hvalid w hw).1)
  cases hg : gather c.components c.wires [] with
  | error e => rw [hg] at hgok; simp [isOkE] at hgok
  | ok items =>
      have hnd : keysNodup items :=
        gather_keysNodup c.components c.wires [] items (by simp [keysNodup, akeys_nil]) hg
      have hwok : isOkE (writeInputs c.components items) = true := by
        apply (writeInputs_ok_iff items c.components).2
        intro it hit
        have hk : it.1 ∈ akeys items := List.mem_map.2 ⟨it, hit, rfl⟩
        have hdriven := gather_keys_driven c.components c.wires items hg it.1 hk
        obtain ⟨w, hw, hdst⟩ := hdriven
        have hpe := (hvalid w hw).2
        have h1 : w.dst_comp = it.1.1 := (Prod.mk.inj hdst).1
        have h2 : w.dst_port = it.1.2 := (Prod.mk.inj hdst).2
        rw [← h1, ← h2]
        exact hpe
      cases hw : writeInputs c.components items with
      | error e => rw [hw] at hwok; simp [isOkE] at hwok
      | ok comps2 =>
          have hshape : compsShape comps2 = compsShape c.components :=
            writeInputs_shape items c.components comps2 hw
          have hstd2 : ∀ e ∈ comps2, Component.std e.2 :=
            std_of_shape _ _ hshape.symm hstd
          have hsok : isOkE (stepAll comps2) = true :=
            (stepAll_ok_iff comps2).2 (fun e he => compStep_ok_of_std e.2 (hstd2 e he))
          cases hsa : stepAll comps2 with
          | error e => rw [hsa] at hsok; simp [isOkE] at hsok
          | ok comps3 =>
              have hmap := stepAll_eq comps2 comps3 hsa
              refine ⟨items, comps2, rfl, hw, ?_, ?_, hnd, hshape⟩
              · rw [← hmap]
                exact hsa
              · simp only [Circuit.step, hg, hw, hsa, except_bind_ok]
                rw [hmap]

/-- C2: in `Circuit.step`, every input port that is the destination of at
least one wire receives `resolve_wire` of the driving output values as they
were before the step (no same-call write is observed), every undriven input
port keeps its value, and — as the chain circuit shows concretely — a
change propagates exactly one hop per step, so a 2-gate chain needs 2
steps. -/
theorem step_resolves_inputs :
    (∀ (c : Circuit), (∀ e ∈ c.components, Component.std e.2) →
      (∀ w ∈ c.wires, wireValid c.components w) →
      ∃ c', c.step = .ok c' ∧
        ∀ cid pname port, portOf c cid pname = some port →
          port.direction = "in" →
          (isDriven c.wires (cid, pname) →
            portValue c' cid pname =
              some (resolve_wire (dstvals c.components c.wires (cid, pname)))) ∧
          (¬ isDriven c.wires (cid, pname) →
            portValue c' cid pname = some port.value)) ∧
    (chainCircuit >>= (Circuit.stepN · 1)).toOption.bind
        (fun cc => portValue cc "not1" "out") = some (-1) ∧
    (chainCircuit >>= (Circuit.stepN · 1)).toOption.bind
        (fun cc => portValue cc "not2" "out") = some 0 ∧
    (chainCircuit >>= (Circuit.stepN · 2)).toOption.bind
        (fun cc => portValue cc "not2" "out") = some 1 := by
  refine ⟨?_, by decide, by decide, by decide⟩
  intro c hstd hvalid
  obtain ⟨items, comps2, hg, hw, hsa, hstep, hnd, hshape⟩ :=
    step_pipeline c hstd hvalid
  refine ⟨_, hstep, ?_⟩
  intro cid pname port hport hdir
  have hstd2 : ∀ e ∈ comps2, Component.std e.2 :=
    std_of_shape _ _ hshape.symm hstd
  have hphase3 : ∀ port2 : Port,
      compsPortOf comps2 (cid, pname) = some port2 → port2.direction = "in" →
      portValue { components := comps2.map (fun e => (e.1, pstep e.2)),
                  wires := c.wires } cid pname = some port2.value := by
    intro port2 hof2 hdir2
    unfold compsPortOf at hof2
    cases hc2 : alookup comps2 cid with
    | none => rw [hc2] at hof2; simp at hof2
    | some comp2 =>
        rw [hc2] at hof2
        simp only [Option.some_bind] at hof2
        have hstdc2 : comp2.std := hstd2 _ (alookup_mem _ _ _ hc2)
        have hok := compStep_ok_of_std comp2 hstdc2
        cases hcs : compStep comp2 with
        | error e => rw [hcs] at hok; simp [isOkE] at hok
        | ok comp2' =>
            have hpres := compStep_in_ports comp2 comp2' hstdc2 hcs pname port2 hof2 hdir2
            unfold portValue
            show (alookup (comps2.map (fun e => (e.1, pstep e.2))) cid).bind _ = _
            rw [alookup_map_pstep, hc2]
            simp only [Option.map_some', Option.some_bind]
            have : pstep comp2 = comp2' := by simp [pstep, hcs]
            rw [this, hpres]
            rfl
  constructor
  · intro hdriven
    have hitems : alookup items (cid, pname) =
        some (dstvals c.components c.wires (cid, pname)) :=
      gather_lookup_driven _ _ _ hg _ hdriven
    have hof2 := writeInputs_portOf_mem items _ _ hw hnd _ _ hitems
    unfold portOf at hport
    rw [hport] at hof2
    simp only [Option.map_some'] at hof2
    have := hphase3 _ hof2 (by simpa using hdir)
    rw [this]
  · intro hundriven
    have hitems : alookup items (cid, pname) = none :=
      gather_lookup_not_driven _ _ _ hg _ hundriven
    have hof2 := writeInputs_portOf_not_mem items _ _ hw _ hitems
    unfold portOf at hport
    rw [hport] at hof2
    exact hphase3 _ hof2 hdir

theorem step_resolves_inputs_witness :
    ((Circuit.mk [("sw", mkSwitchTernary "sw" 1), ("n", mkTNOT "n")]
        [⟨"sw", "out", "n", "in"⟩]).step).toOption.bind
      (fun c' => portValue c' "n" "in") = some 1 := by
  obtain ⟨c', hstep, hchar⟩ :=
    step_resolves_inputs.1
      (Circuit.mk [("sw", mkSwitchTernary "sw" 1), ("n", mkTNOT "n")]
        [⟨"sw", "out", "n", "in"⟩]) (by decide) (by decide)
  rw [hstep]
  have h1 := (hchar "n" "in" ⟨"in", "in", 0⟩ (by decide) (by decide)).1 (by decide)
  show portValue c' "n" "in" = some 1
  rw [h1]
  decide

theorem alookup_of_mem_nodup {α β : Type} [DecidableEq α]
    (l : List (α × β)) (k : α) (v : β) (hnd : keysNodup l) (h : (k, v) ∈ l) :
    alookup l k = some v := by
  induction l with
  | nil => simp at h
  | cons e rest ih =>
      unfold keysNodup at hnd
      rw [akeys_cons, List.nodup_cons] at hnd
      rcases List.mem_cons.1 h with hh | hh
      · rw [← hh]
        simp [alookup]
      · have hk : e.1 ≠ k := by
          intro heq
          apply hnd.1
          rw [heq]
          exact List.mem_map.2 ⟨(k, v), hh, rfl⟩
        simp only [alookup, hk, if_false]
        exact ih hnd.2 hh

theorem stepInOrder_chars :
    ∀ (order : List String) (comps : List (String × Component)),
      keysNodup comps → order.Nodup →
      (∀ e ∈ comps, e.1 ∈ order → isOkE (compStep e.2) = true) →
      stepInOrder order comps =
        .ok (comps.map (fun e => if e.1 ∈ order then (e.1, pstep e.2) else e)) := by
  intro order
  induction order with
  | nil =>
      intro comps _ _ _
      simp [stepInOrder]
  | cons id rest ih =>
      intro comps hnd hordernd hok
      rw [List.nodup_cons] at hordernd
      cases hc : alookup comps id with
      | none =>
          have hnotin : ∀ e ∈ comps, ¬e.1 = id := by
            intro e he heq
            have : (alookup comps id).isSome = true := by
              apply alookup_isSome_of_mem_akeys
              rw [← heq]
              exact List.mem_map.2 ⟨e, he, rfl⟩
            rw [hc] at this
            simp at this
          simp only [stepInOrder, hc]
          rw [ih comps hnd hordernd.2
              (fun e he hm => hok e he (List.mem_cons_of_mem _ hm))]
          congr 1
          apply List.map_congr_left
          intro e he
          by_cases hm : e.1 ∈ rest <;>
            simp [hm, List.mem_cons, hnotin e he]
      | some comp =>
          have hmem := alookup_mem comps id comp hc
          have hokc := hok (id, comp) hmem (List.mem_cons_self _ _)
          cases hcs : compStep comp with
          | error e => rw [hcs] at hokc; simp [isOkE] at hokc
          | ok comp' =>
              simp only [stepInOrder, hc, hcs, except_bind_ok]
              have hnd2 : keysNodup (amodify comps id (fun _ => comp')) := by
                unfold keysNodup
                rw [akeys_amodify]
                exact hnd
              have hok2 : ∀ e ∈ amodify comps id (fun _ => comp'),
                  e.1 ∈ rest → isOkE (compStep e.2) = true := by
                intro e he hm
                unfold amodify at he
                obtain ⟨e0, he0, heq⟩ := List.mem_map.1 he
                by_cases h0 : e0.1 = id
                · exfalso
                  apply hordernd.1
                  have : e.1 = id := by rw [← heq]; simp [h0]
                  rw [← this]
                  exact hm
                · have heq0 : e = e0 := by rw [← heq]; simp [h0]
                  rw [heq0] at hm ⊢
                  exact hok e0 he0 (List.mem_cons_of_mem _ hm)
              rw [ih _ hnd2 hordernd.2 hok2]
              congr 1
              unfold amodify
              rw [List.map_map]
              apply List.map_congr_left
              intro e he
              by_cases h0 : e.1 = id
              · have he2 : e.2 = comp := by
                  have := alookup_of_mem_nodup comps e.1 e.2 hnd he
                  rw [h0, hc] at this
                  exact (Option.some.inj this).symm
                have hps : pstep e.2 = comp' := by
                  rw [he2]
                  simp [pstep, hcs]
                simp [h0, hordernd.1, hps]
              · simp [h0]

theorem akeys_of_shape (comps comps' : List (String × Component))
    (h : compsShape comps = compsShape comps') : akeys comps = akeys comps' := by
  have := congrArg (List.map Prod.fst) h
  simpa [compsShape, akeys, List.map_map] using this

/-- C3: the circuit state produced by `Circuit.step` does not depend on the
order in which phase 2 evaluates the component transfer functions: running
them in any order that enumerates the component ids once yields exactly the
same circuit (all port values, latch states and probe observations). -/
theorem step_order_independent (c : Circuit) (order : List String)
    (hstd : ∀ e ∈ c.components, Component.std e.2)
    (hvalid : ∀ w ∈ c.wires, wireValid c.components w)
    (hnd : keysNodup c.components)
    (hperm : order.Perm (akeys c.components)) :
    c.stepWithOrder order = c.step := by
  obtain ⟨items, comps2, hg, hw, hsa, hstep, hndi, hshape⟩ :=
    step_pipeline c hstd hvalid
  have hstd2 : ∀ e ∈ comps2, Component.std e.2 :=
    std_of_shape _ _ hshape.symm hstd
  have hkeys : akeys comps2 = akeys c.components := akeys_of_shape _ _ hshape
  have hnd2 : keysNodup comps2 := by
    unfold keysNodup
    rw [hkeys]
    exact hnd
  have hord : stepInOrder order comps2 =
      .ok (comps2.map (fun e => if e.1 ∈ order then (e.1, pstep e.2) else e)) :=
    stepInOrder_chars order comps2 hnd2 (hperm.symm.nodup hnd)
      (fun e he _ => compStep_ok_of_std e.2 (hstd2 e he))
  have hmap : comps2.map (fun e => if e.1 ∈ order then (e.1, pstep e.2) else e) =
      comps2.map (fun e => (e.1, pstep e.2)) := by
    apply List.map_congr_left
    intro e he
    have : e.1 ∈ order := by
      rw [hperm.mem_iff, ← hkeys]
      exact List.mem_map.2 ⟨e, he, rfl⟩
    simp [this]
  rw [hstep]
  unfold Circuit.stepWithOrder
  simp only [hg, hw, except_bind_ok, hord, hmap]

/-- Witness for C3: on a concrete two-component circuit, evaluating in the
reversed order gives the very same step result. -/
theorem step_order_independent_witness :
    (Circuit.mk [("sw", mkSwitchTernary "sw" 1), ("n", mkTNOT "n")]
        [⟨"sw", "out", "n", "in"⟩]).stepWithOrder ["n", "sw"] =
      (Circuit.mk [("sw", mkSwitchTernary "sw" 1), ("n", mkTNOT "n")]
        [⟨"sw", "out", "n", "in"⟩]).step :=
  step_order_independent _ ["n", "sw"] (by decide) (by decide) (by decide)
    (by decide)

theorem except_bind_eq_error {ε α β : Type} (x : Except ε α)
    (f : α → Except ε β) (err : ε) (h : (x >>= f) = .error err) :
    x = .error err ∨ ∃ a, x = .ok a ∧ f a = .error err := by
  cases x with
  | error e =>
      left
      rw [except_bind_error] at h
      rw [Except.error.inj h]
  | ok a =>
      right
      rw [except_bind_ok] at h
      exact ⟨a, rfl, h⟩

theorem get_in_error_shape (c : Component) (n : String) (err : CircuitError)
    (h : c.get_in n = .error err) : err = .unknownPort c.id n := by
  unfold Component.get_in at h
  cases hp : alookup c.ports n with
  | none =>
      rw [hp] at h
      exact (Except.error.inj h).symm
  | some p => rw [hp] at h; simp at h

theorem set_out_error_shape (c : Component) (n : String) (v : Int)
    (err : CircuitError) (h : c.set_out n v = .error err) :
    err = .unknownPort c.id n := by
  unfold Component.set_out at h
  cases hp : (alookup c.ports n).isSome with
  | true => simp [hp] at h
  | false =>
      simp only [hp, Bool.false_eq_true, if_false] at h
      exact (Except.error.inj h).symm

theorem compStep_error_shape (c : Component) (err : CircuitError)
    (h : compStep c = .error err) : ∃ a b, err = .unknownPort a b := by
  have hone : ∀ (cc : Component) (n : String) (v : Int),
      cc.set_out n v = .error err → ∃ a b, err = .unknownPort a b :=
    fun cc n v hh => ⟨cc.id, n, set_out_error_shape cc n v err hh⟩
  have hget : ∀ (cc : Component) (n : String),
      cc.get_in n = .error err → ∃ a b, err = .unknownPort a b :=
    fun cc n hh => ⟨cc.id, n, get_in_error_shape cc n err hh⟩
  cases hs : c.state with
  | switchBinary v => simp [compStep, hs] at h
  | switchTernary v => simp [compStep, hs] at h
  | tnot =>
      simp only [compStep, hs] at h
      rcases except_bind_eq_error _ _ _ h with hh | ⟨x, hx, hh⟩
      · exact hget _ _ hh
      · exact hone _ _ _ hh
  | tand =>
      simp only [compStep, hs] at h
      rcases except_bind_eq_error _ _ _ h with hh | ⟨a, ha, hh⟩
      · exact hget _ _ hh
      · rcases except_bind_eq_error _ _ _ hh with hh2 | ⟨b, hb, hh2⟩
        · exact hget _ _ hh2
        · exact hone _ _ _ hh2
  | tnor =>
      simp only [compStep, hs] at h
      rcases except_bind_eq_error _ _ _ h with hh | ⟨a, ha, hh⟩
      · exact hget _ _ hh
      · rcases except_bind_eq_error _ _ _ hh with hh2 | ⟨b, hb, hh2⟩
        · exact hget _ _ hh2
        · exact hone _ _ _ hh2
  | transistor =>
      simp only [compStep, hs] at h
      rcases except_bind_eq_error _ _ _ h with hh | ⟨a, ha, hh⟩
      · exact hget _ _ hh
      · rcases except_bind_eq_error _ _ _ hh with hh2 | ⟨b, hb, hh2⟩
        · exact hget _ _ hh2
        · by_cases hif : a ≠ 0 ∧ b ≠ 0
          · rw [if_pos hif] at hh2
            exact hone _ _ _ hh2
          · rw [if_neg hif] at hh2
            exact hone _ _ _ hh2
  | tlatch st =>
      simp only [compStep, hs] at h
      rcases except_bind_eq_error _ _ _ h with hh | ⟨en, hen, hh⟩
      · exact hget _ _ hh
      · by_cases he1 : en = 1
        · rw [if_pos he1] at hh
          rcases except_bind_eq_error _ _ _ hh with hh2 | ⟨inp, hinp, hh2⟩
          · exact hget _ _ hh2
          · exact hone _ _ _ hh2
        · rw [if_neg he1] at hh
          exact hone _ _ _ hh
  | probe last =>
      simp only [compStep, hs] at h
      rcases except_bind_eq_error _ _ _ h with hh | ⟨x, hx, hh⟩
      · exact hget _ _ hh
      · simp at hh
  | tfulladder =>
      simp only [compStep, hs] at h
      rcases except_bind_eq_error _ _ _ h with hh | ⟨a, ha, hh⟩
      · exact hget _ _ hh
      · rcases except_bind_eq_error _ _ _ hh with hh2 | ⟨b, hb, hh2⟩
        · exact hget _ _ hh2
        · rcases except_bind_eq_error _ _ _ hh2 with hh3 | ⟨ci, hci, hh3⟩
          · exact hget _ _ hh3
          · rcases except_bind_eq_error _ _ _ hh3 with hh4 | ⟨c2, hc2, hh4⟩
            · exact hone _ _ _ hh4
            · exact hone _ _ _ hh4

theorem gather_error_shape (comps : List (String × Component)) :
    ∀ (ws : List Wire) (acc : List ((String × String) × List Int))
      (err : CircuitError), gather comps ws acc = .error err →
      (∃ id, err = .unknownComponent id) ∨ (∃ a b, err = .unknownPort a b) := by
  intro ws
  induction ws with
  | nil => intro acc err h; simp [gather] at h
  | cons w rest ih =>
      intro acc err h
      cases hc : alookup comps w.src_comp with
      | none =>
          simp only [gather, hc] at h
          exact Or.inl ⟨w.src_comp, (Except.error.inj h).symm⟩
      | some src =>
          cases hp : alookup src.ports w.src_port with
          | none =>
              simp only [gather, hc, hp] at h
              exact Or.inr ⟨w.src_comp, w.src_port, (Except.error.inj h).symm⟩
          | some p =>
              simp only [gather, hc, hp] at h
              exact ih _ _ h

theorem writeInputs_error_shape :
    ∀ (items : List ((String × String) × List Int))
      (comps : List (String × Component)) (err : CircuitError),
      writeInputs comps items = .error err →
      (∃ id, err = .unknownComponent id) ∨ (∃ a b, err = .unknownPort a b) := by
  intro items
  induction items with
  | nil => intro comps err h; simp [writeInputs] at h
  | cons it rest ih =>
      intro comps err h
      obtain ⟨k, drivers⟩ := it
      cases hc : alookup comps k.1 with
      | none =>
          simp only [writeInputs, hc] at h
          exact Or.inl ⟨k.1, (Except.error.inj h).symm⟩
      | some comp =>
          cases hp : (alookup comp.ports k.2).isSome with
          | false =>
              simp only [writeInputs, hc, hp, Bool.false_eq_true, if_false] at h
              exact Or.inr ⟨k.1, k.2, (Except.error.inj h).symm⟩
          | true =>
              simp only [writeInputs, hc, hp, if_true] at h
              exact ih _ _ h

theorem stepAll_error_shape :
    ∀ (comps : List (String × Component)) (err : CircuitError),
      stepAll comps = .error err → ∃ a b, err = .unknownPort a b := by
  intro comps
  induction comps with
  | nil => intro err h; simp [stepAll] at h
  | cons e rest ih =>
      intro err h
      obtain ⟨k, c⟩ := e
      cases hc : compStep c with
      | error e2 =>
          simp only [stepAll, hc, except_bind_error] at h
          rw [← Except.error.inj h]
          exact compStep_error_shape c e2 hc
      | ok c2 =>
          cases hr : stepAll rest with
          | error e2 =>
              simp only [stepAll, hc, hr, except_bind_ok, except_bind_error] at h
              rw [← Except.error.inj h]
              exact ih e2 hr
          | ok rest2 => simp [stepAll, hc, hr, except_bind_ok] at h

/-- C9: `connect` never fails and always appends exactly the given wire;
for standard components, `Circuit.step` succeeds exactly when every wire
endpoint names an existing component and port; and a failing step reports
only UnknownComponentError or UnknownPortError — the failure surfaces at
step time, never at connect time. -/
theorem connect_unchecked_step_checks :
    (∀ (c : Circuit) (sc sp dc dp : String),
      c.connect sc sp dc dp =
        { components := c.components, wires := c.wires ++ [⟨sc, sp, dc, dp⟩] }) ∧
    (∀ c : Circuit, (∀ e ∈ c.components, Component.std e.2) →
      (isOkE c.step = true ↔ ∀ w ∈ c.wires, wireValid c.components w)) ∧
    (∀ (c : Circuit) (err : CircuitError), c.step = .error err →
      (∃ id, err = .unknownComponent id) ∨ (∃ a b, err = .unknownPort a b)) := by
  refine ⟨fun c sc sp dc dp => rfl, fun c hstd => ⟨?_, ?_⟩, fun c err h => ?_⟩
  · intro hok
    unfold Circuit.step at hok
    cases hg : gather c.components c.wires [] with
    | error e => rw [hg] at hok; simp [except_bind_error, isOkE] at hok
    | ok items =>
        rw [hg, except_bind_ok] at hok
        cases hw : writeInputs c.components items with
        | error e => rw [hw] at hok; simp [except_bind_error, isOkE] at hok
        | ok comps2 =>
            intro w hwmem
            have hsrc : portExists c.components w.src_comp w.src_port = true :=
              (gather_ok_iff c.components c.wires []).1 (by simp [hg, isOkE]) w hwmem
            have hdriven : isDriven c.wires (w.dst_comp, w.dst_port) :=
              ⟨w, hwmem, rfl⟩
            have hitems := gather_lookup_driven _ _ _ hg _ hdriven
            have hmem := alookup_mem _ _ _ hitems
            have hdst := (writeInputs_ok_iff items c.components).1
              (by simp [hw, isOkE]) _ hmem
            exact ⟨hsrc, hdst⟩
  · intro hvalid
    obtain ⟨items, comps2, hg, hw, hsa, hstep, hnd, hshape⟩ :=
      step_pipeline c hstd hvalid
    simp [hstep, isOkE]
  · unfold Circuit.step at h
    cases hg : gather c.components c.wires [] with
    | error e =>
        rw [hg, except_bind_error] at h
        rw [← Except.error.inj h]
        exact gather_error_shape c.components c.wires [] e hg
    | ok items =>
        rw [hg, except_bind_ok] at h
        cases hw : writeInputs c.components items with
        | error e =>
            rw [hw, except_bind_error] at h
            rw [← Except.error.inj h]
            exact writeInputs_error_shape items c.components e hw
        | ok comps2 =>
            rw [hw, except_bind_ok] at h
            cases hsa : stepAll comps2 with
            | error e =>
                rw [hsa, except_bind_error] at h
                rw [← Except.error.inj h]
                exact Or.inr (stepAll_error_shape comps2 e hsa)
            | ok comps3 => rw [hsa, except_bind_ok] at h; simp at h

/-- Witness for C9: the two-component chain circuit has only valid wire
endpoints, so its step succeeds; adding a dangling wire makes the same
equivalence report failure. -/
theorem connect_unchecked_step_checks_witness :
    isOkE (Circuit.mk [("sw", mkSwitchTernary "sw" 1), ("n", mkTNOT "n")]
        [⟨"sw", "out", "n", "in"⟩]).step = true ∧
    isOkE (Circuit.mk [("sw", mkSwitchTernary "sw" 1), ("n", mkTNOT "n")]
        [⟨"sw", "out", "ghost", "in"⟩]).step = false := by
  constructor
  · exact (connect_unchecked_step_checks.2.1 _ (by decide)).2 (by decide)
  · cases hb : isOkE (Circuit.mk [("sw", mkSwitchTernary "sw" 1), ("n", mkTNOT "n")]
        [⟨"sw", "out", "ghost", "in"⟩]).step with
    | false => rfl
    | true =>
        exfalso
        have := (connect_unchecked_step_checks.2.1 _ (by decide)).1 hb
        have h2 := this ⟨"sw", "out", "ghost", "in"⟩ (by decide)
        revert h2
        decide

theorem except_bind_eq_ok {ε α β : Type} (x : Except ε α)
    (f : α → Except ε β) (b : β) (h : (x >>= f) = .ok b) :
    ∃ a, x = .ok a ∧ f a = .ok b := by
  cases x with
  | error e =>
      rw [except_bind_error] at h
      exact absurd h (by simp)
  | ok a =>
      rw [except_bind_ok] at h
      exact ⟨a, rfl, h⟩

theorem compsStruct_of_shape :
    ∀ (l l' : List (String × Component)),
      compsShape l = compsShape l' → compsStruct l = compsStruct l' := by
  intro l
  induction l with
  | nil =>
      intro l' h
      cases l' with
      | nil => rfl
      | cons e' rest' => simp [compsShape] at h
  | cons e rest ih =>
      intro l' h
      cases l' with
      | nil => simp [compsShape] at h
      | cons e' rest' =>
          simp only [compsShape, List.map_cons, List.cons.injEq] at h
          obtain ⟨hhead, hrest⟩ := h
          have hk : e.1 = e'.1 := (Prod.mk.inj hhead).1
          have hsh : compShape e.2 = compShape e'.2 := (Prod.mk.inj hhead).2
          have hid : e.2.id = e'.2.id := (Prod.mk.inj hsh).1
          have hty : e.2.type = e'.2.type := (Prod.mk.inj (Prod.mk.inj hsh).2).1
          have hps : portSig e.2.ports = portSig e'.2.ports :=
            (Prod.mk.inj (Prod.mk.inj (Prod.mk.inj hsh).2).2).2
          simp only [compsStruct, List.map_cons, List.cons.injEq]
          refine ⟨?_, ?_⟩
          · rw [hk]
            unfold compStruct
            rw [hid, hty, hps]
          · simpa [compsStruct] using ih rest' hrest

theorem stepAll_struct (comps comps3 : List (String × Component))
    (h : stepAll comps = .ok comps3) : compsStruct comps3 = compsStruct comps := by
  rw [stepAll_eq comps comps3 h]
  unfold compsStruct
  rw [List.map_map]
  apply List.map_congr_left
  intro e he
  have hok : isOkE (compStep e.2) = true :=
    (stepAll_ok_iff comps).1 (by simp [h, isOkE]) e he
  cases hcs : compStep e.2 with
  | error er => rw [hcs] at hok; simp [isOkE] at hok
  | ok e2 => simp [pstep, hcs, compStep_struct _ _ hcs]

theorem compsStruct_amodify_const (comps : List (String × Component))
    (cid : String) (comp comp2 : Component) (hnd : keysNodup comps)
    (hc : alookup comps cid = some comp)
    (hs : compStruct comp2 = compStruct comp) :
    compsStruct (amodify comps cid (fun _ => comp2)) = compsStruct comps := by
  unfold compsStruct amodify
  rw [List.map_map]
  apply List.map_congr_left
  intro e he
  by_cases h : e.1 = cid
  · have he2 : e.2 = comp := by
      have := alookup_of_mem_nodup comps e.1 e.2 hnd he
      rw [h, hc] at this
      exact (Option.some.inj this).symm
    simp [h, hs, he2]
  · simp [h]

/-- C10: neither `step`, `set_switch`, `toggle` nor `get_probe` changes the
circuit structure — the component map keys, ids, types, port layouts and
the wire list all survive unchanged (only port values and per-component
state move); `get_probe` is a pure query, returning 0 for a probe no step
has yet observed. -/
theorem engine_frame :
    (∀ (c c' : Circuit), c.step = .ok c' → c'.shape = c.shape) ∧
    (∀ (c c' : Circuit) (id : String) (v : Int), keysNodup c.components →
      c.set_switch id v = .ok c' → c'.shape = c.shape) ∧
    (∀ (c c' : Circuit) (id : String), keysNodup c.components →
      c.toggle id = .ok c' → c'.shape = c.shape) ∧
    (∀ (c : Circuit) (id pid : String),
      alookup c.components id = some (mkProbe pid) → c.get_probe id = .ok 0) := by
  refine ⟨?_, ?_, ?_, ?_⟩
  · intro c c' h
    unfold Circuit.step at h
    cases hg : gather c.components c.wires [] with
    | error e => simp [hg, except_bind_error] at h
    | ok items =>
        rw [hg, except_bind_ok] at h
        cases hw : writeInputs c.components items with
        | error e => simp [hw, except_bind_error] at h
        | ok comps2 =>
            rw [hw, except_bind_ok] at h
            cases hsa : stepAll comps2 with
            | error e => simp [hsa, except_bind_error] at h
            | ok comps3 =>
                rw [hsa, except_bind_ok] at h
                rw [← Except.ok.inj h]
                unfold Circuit.shape
                simp only
                rw [stepAll_struct comps2 comps3 hsa,
                  compsStruct_of_shape comps2 c.components
                    (writeInputs_shape items c.components comps2 hw)]
  · intro c c' id v hnd h
    unfold Circuit.set_switch at h
    cases hc : alookup c.components id with
    | none => simp [hc] at h
    | some comp =>
        rw [hc] at h
        have hgen : ∀ (cm2 : Component), compStruct cm2 = compStruct comp →
            (Except.ok (Circuit.mk (amodify c.components id (fun _ => cm2)) c.wires)
              : Except CircuitError Circuit) = Except.ok c' → c'.shape = c.shape := by
          intro cm2 hcs hok
          rw [← Except.ok.inj hok]
          unfold Circuit.shape
          simp only
          rw [compsStruct_amodify_const c.components id comp cm2 hnd hc hcs]
        cases hst : comp.state with
        | switchBinary v0 =>
            simp only [hst] at h
            obtain ⟨comp2, hso, hok⟩ := except_bind_eq_ok _ _ _ h
            exact hgen comp2 (by rw [set_out_struct _ _ _ _ hso]; simp [compStruct]) hok
        | switchTernary v0 =>
            simp only [hst] at h
            obtain ⟨comp2, hso, hok⟩ := except_bind_eq_ok _ _ _ h
            exact hgen comp2 (by rw [set_out_struct _ _ _ _ hso]; simp [compStruct]) hok
        | tnot => simp [hst] at h
        | tand => simp [hst] at h
        | tnor => simp [hst] at h
        | transistor => simp [hst] at h
        | tlatch st => simp [hst] at h
        | probe last => simp [hst] at h
        | tfulladder => simp [hst] at h
  · intro c c' id hnd h
    unfold Circuit.toggle at h
    cases hc : alookup c.components id with
    | none => simp [hc] at h
    | some comp =>
        rw [hc] at h
        unfold Component.toggle at h
        have hgen : ∀ (cm2 : Component), compStruct cm2 = compStruct comp →
            (Except.ok (Circuit.mk (amodify c.components id (fun _ => cm2)) c.wires)
              : Except CircuitError Circuit) = Except.ok c' → c'.shape = c.shape := by
          intro cm2 hcs hok
          rw [← Except.ok.inj hok]
          unfold Circuit.shape
          simp only
          rw [compsStruct_amodify_const c.components id comp cm2 hnd hc hcs]
        cases hst : comp.state with
        | switchBinary v0 =>
            simp only [hst] at h
            obtain ⟨comp2, hso, hok⟩ := except_bind_eq_ok _ _ _ h
            exact hgen comp2 (by rw [set_out_struct _ _ _ _ hso]; simp [compStruct]) hok
        | switchTernary v0 =>
            simp only [hst] at h
            cases hix : List.findIdx? (fun o => o = v0) [(-1 : Int), 0, 1] with
            | none =>
                simp only [hix] at h
                simp [except_bind_error] at h
            | some i =>
                simp only [hix] at h
                obtain ⟨comp2, hso, hok⟩ := except_bind_eq_ok _ _ _ h
                exact hgen comp2 (by rw [set_out_struct _ _ _ _ hso]; simp [compStruct]) hok
        | tnot => simp [hst, except_bind_error] at h
        | tand => simp [hst, except_bind_error] at h
        | tnor => simp [hst, except_bind_error] at h
        | transistor => simp [hst, except_bind_error] at h
        | tlatch st => simp [hst, except_bind_error] at h
        | probe last => simp [hst, except_bind_error] at h
        | tfulladder => simp [hst, except_bind_error] at h
  · intro c id pid h
    unfold Circuit.get_probe
    rw [h]
    rfl

/-- Witness for C10: on a concrete two-component circuit the step result
has the same shape, and a fresh probe reads 0. -/
theorem engine_frame_witness :
    ((Circuit.mk [("sw", mkSwitchTernary "sw" 1), ("n", mkTNOT "n")]
        [⟨"sw", "out", "n", "in"⟩]).step).toOption.map Circuit.shape =
      some (Circuit.mk [("sw", mkSwitchTernary "sw" 1), ("n", mkTNOT "n")]
        [⟨"sw", "out", "n", "in"⟩]).shape ∧
    (Circuit.mk [("p", mkProbe "p")] []).get_probe "p" = .ok 0 := by
  constructor
  · cases hs : (Circuit.mk [("sw", mkSwitchTernary "sw" 1), ("n", mkTNOT "n")]
        [⟨"sw", "out", "n", "in"⟩]).step with
    | error e =>
        have hok : isOkE (Circuit.mk [("sw", mkSwitchTernary "sw" 1), ("n", mkTNOT "n")]
            [⟨"sw", "out", "n", "in"⟩]).step = true := by decide
        rw [hs] at hok
        simp [isOkE] at hok
    | ok c' =>
        show some c'.shape = _
        rw [engine_frame.1 _ _ hs]
  · exact engine_frame.2.2.2 _ "p" "p" (by decide)

theorem amodify_valid (comps : List (String × Component)) (cid : String)
    (f : Component → Component) (hf : ∀ cc, cc.valid → (f cc).valid)
    (h : ∀ e ∈ comps, Component.valid e.2) :
    ∀ e ∈ amodify comps cid f, Component.valid e.2 := by
  intro e he
  unfold amodify at he
  obtain ⟨e0, he0, heq⟩ := List.mem_map.1 he
  by_cases h0 : e0.1 = cid
  · rw [← heq]
    simp only [h0, if_true]
    exact hf e0.2 (h e0 he0)
  · rw [← heq]
    simp only [h0, if_false]
    exact h e0 he0

theorem writeInputs_valid :
    ∀ (items : List ((String × String) × List Int))
      (comps res : List (String × Component)),
      writeInputs comps items = .ok res →
      (∀ e ∈ comps, Component.valid e.2) → ∀ e ∈ res, Component.valid e.2 := by
  intro items
  induction items with
  | nil =>
      intro comps res h hv
      simp [writeInputs] at h
      rw [← h]
      exact hv
  | cons it rest ih =>
      intro comps res h hv
      obtain ⟨k, drivers⟩ := it
      cases hc : alookup comps k.1 with
      | none => simp [writeInputs, hc] at h
      | some comp =>
          cases hp : (alookup comp.ports k.2).isSome with
          | false => simp [writeInputs, hc, hp] at h
          | true =>
              simp only [writeInputs, hc, hp, if_true] at h
              apply ih _ _ h
              apply amodify_valid
              · intro cc hcc
                exact ⟨setPortValue_valid cc.ports k.2 _ hcc.1
                  (resolve_wire_valid drivers), hcc.2⟩
              · exact hv

theorem step_valid (c c' : Circuit) (h : c.step = .ok c') (hv : Circuit.valid c) :
    Circuit.valid c' := by
  unfold Circuit.step at h
  cases hg : gather c.components c.wires [] with
  | error e => simp [hg, except_bind_error] at h
  | ok items =>
      rw [hg, except_bind_ok] at h
      cases hw : writeInputs c.components items with
      | error e => simp [hw, except_bind_error] at h
      | ok comps2 =>
          rw [hw, except_bind_ok] at h
          cases hsa : stepAll comps2 with
          | error e => simp [hsa, except_bind_error] at h
          | ok comps3 =>
              rw [hsa, except_bind_ok] at h
              rw [← Except.ok.inj h]
              have hv2 : ∀ e ∈ comps2, Component.valid e.2 :=
                writeInputs_valid items c.components comps2 hw hv
              intro e he
              rw [stepAll_eq comps2 comps3 hsa] at he
              obtain ⟨e0, he0, heq⟩ := List.mem_map.1 he
              have hok : isOkE (compStep e0.2) = true :=
                (stepAll_ok_iff comps2).1 (by simp [hsa, isOkE]) e0 he0
              cases hcs : compStep e0.2 with
              | error er => rw [hcs] at hok; simp [isOkE] at hok
              | ok e2 =>
                  rw [← heq]
                  simp only
                  have : pstep e0.2 = e2 := by simp [pstep, hcs]
                  rw [this]
                  exact compStep_valid e0.2 e2 hcs (hv2 e0 he0)

theorem set_switch_valid (c c' : Circuit) (id : String) (v : Int)
    (h : c.set_switch id v = .ok c') (hv : Circuit.valid c) : Circuit.valid c' := by
  unfold Circuit.set_switch at h
  cases hc : alookup c.components id with
  | none => simp [hc] at h
  | some comp =>
      rw [hc] at h
      have hcompv : comp.valid := hv _ (alookup_mem _ _ _ hc)
      cases hst : comp.state with
      | switchBinary v0 =>
          simp only [hst] at h
          obtain ⟨comp2, hso, hok⟩ := except_bind_eq_ok _ _ _ h
          have hst2 : stateValid (CompState.switchBinary (if v ≠ 0 then 1 else 0)) := by
            by_cases hvv : v ≠ 0 <;> simp [hvv, stateValid, validTrit]
          obtain ⟨hp2, hsame⟩ := set_out_valid _ _ _ _ hso hcompv.1
          rw [← Except.ok.inj hok]
          intro e he
          exact amodify_valid c.components id _
            (fun _ _ => ⟨hp2, by rw [hsame]; exact hst2⟩) hv e he
      | switchTernary v0 =>
          simp only [hst] at h
          obtain ⟨comp2, hso, hok⟩ := except_bind_eq_ok _ _ _ h
          have hst2 : stateValid (CompState.switchTernary (clamp_t v)) := by
            simpa [stateValid] using clamp_t_valid v
          obtain ⟨hp2, hsame⟩ := set_out_valid _ _ _ _ hso hcompv.1
          rw [← Except.ok.inj hok]
          intro e he
          exact amodify_valid c.components id _
            (fun _ _ => ⟨hp2, by rw [hsame]; exact hst2⟩) hv e he
      | tnot => simp [hst] at h
      | tand => simp [hst] at h
      | tnor => simp [hst] at h
      | transistor => simp [hst] at h
      | tlatch st => simp [hst] at h
      | probe last => simp [hst] at h
      | tfulladder => simp [hst] at h

theorem toggle_valid (c c' : Circuit) (id : String)
    (h : c.toggle id = .ok c') (hv : Circuit.valid c) : Circuit.valid c' := by
  unfold Circuit.toggle at h
  cases hc : alookup c.components id with
  | none => simp [hc] at h
  | some comp =>
      rw [hc] at h
      have hcompv : comp.valid := hv _ (alookup_mem _ _ _ hc)
      unfold Component.toggle at h
      cases hst : comp.state with
      | switchBinary v0 =>
          simp only [hst] at h
          obtain ⟨comp2, hso, hok⟩ := except_bind_eq_ok _ _ _ h
          have hst2 : stateValid (CompState.switchBinary (if v0 = 1 then 0 else 1)) := by
            by_cases hvv : v0 = 1 <;> simp [hvv, stateValid, validTrit]
          obtain ⟨hp2, hsame⟩ := set_out_valid _ _ _ _ hso hcompv.1
          rw [← Except.ok.inj hok]
          intro e he
          exact amodify_valid c.components id _
            (fun _ _ => ⟨hp2, by rw [hsame]; exact hst2⟩) hv e he
      | switchTernary v0 =>
          simp only [hst] at h
          cases hix : List.findIdx? (fun o => o = v0) [(-1 : Int), 0, 1] with
          | none =>
              simp only [hix] at h
              simp [except_bind_error] at h
          | some i =>
              simp only [hix] at h
              obtain ⟨comp2, hso, hok⟩ := except_bind_eq_ok _ _ _ h
              have hmod : (i + 1) % 3 = 0 ∨ (i + 1) % 3 = 1 ∨ (i + 1) % 3 = 2 := by
                omega
              have hst2 : stateValid (CompState.switchTernary
                  (List.getD [(-1 : Int), 0, 1] ((i + 1) % 3) 0)) := by
                rcases hmod with hm | hm | hm <;> simp [hm, stateValid, validTrit]
              obtain ⟨hp2, hsame⟩ := set_out_valid _ _ _ _ hso hcompv.1
              rw [← Except.ok.inj hok]
              intro e he
              exact amodify_valid c.components id _
                (fun _ _ => ⟨hp2, by rw [hsame]; exact hst2⟩) hv e he
      | tnot => simp [hst, except_bind_error] at h
      | tand => simp [hst, except_bind_error] at h
      | tnor => simp [hst, except_bind_error] at h
      | transistor => simp [hst, except_bind_error] at h
      | tlatch st => simp [hst, except_bind_error] at h
      | probe last => simp [hst, except_bind_error] at h
      | tfulladder => simp [hst, except_bind_error] at h

/-- C6: every stored trit stays in `{-1, 0, 1}`: `clamp_t` saturates every
integer into the range (with the spec's three sample values), `resolve_wire`
only ever produces -1, 0 or 1, every constructor builds a fully in-range
component, and `step`, `set_switch` and `toggle` preserve in-range-ness of
all port values, switch stored values, latch state and probe observations. -/
theorem trit_range_invariant :
    (∀ v : Int, validTrit (clamp_t v)) ∧
    clamp_t 2 = 1 ∧ clamp_t (-5) = -1 ∧ clamp_t 0 = 0 ∧
    (∀ ds : List Int, validTrit (resolve_wire ds)) ∧
    (∀ id v, (mkSwitchBinary id v).valid) ∧
    (∀ id v, (mkSwitchTernary id v).valid) ∧
    (∀ id, (mkTNOT id).valid) ∧ (∀ id, (mkTAND id).valid) ∧
    (∀ id, (mkTNOR id).valid) ∧ (∀ id, (mkTransistor id).valid) ∧
    (∀ id, (mkTLatch id).valid) ∧ (∀ id, (mkProbe id).valid) ∧
    (∀ id, (mkTFullAdder id).valid) ∧
    (∀ c c' : Circuit, c.step = .ok c' → Circuit.valid c → Circuit.valid c') ∧
    (∀ (c c' : Circuit) (id : String) (v : Int), c.set_switch id v = .ok c' →
      Circuit.valid c → Circuit.valid c') ∧
    (∀ (c c' : Circuit) (id : String), c.toggle id = .ok c' →
      Circuit.valid c → Circuit.valid c') := by
  refine ⟨clamp_t_valid, by decide, by decide, by decide, resolve_wire_valid,
    ?_, ?_, ?_, ?_, ?_, ?_, ?_, ?_, ?_,
    fun c c' h hv => step_valid c c' h hv,
    fun c c' id v h hv => set_switch_valid c c' id v h hv,
    fun c c' id h hv => toggle_valid c c' id h hv⟩
  · intro id v
    refine ⟨?_, ?_⟩
    · intro e he
      simp [mkSwitchBinary] at he
      rw [he]
      exact clamp_t_valid _
    · by_cases hvv : v ≠ 0 <;> simp [mkSwitchBinary, hvv, stateValid, validTrit]
  · intro id v
    refine ⟨?_, ?_⟩
    · intro e he
      simp [mkSwitchTernary] at he
      rw [he]
      exact clamp_t_valid _
    · simpa [mkSwitchTernary, stateValid] using clamp_t_valid v
  · intro id
    refine ⟨?_, trivial⟩
    intro e he
    simp [mkTNOT] at he
    rcases he with rfl | rfl <;> decide
  · intro id
    refine ⟨?_, trivial⟩
    intro e he
    simp [mkTAND] at he
    rcases he with rfl | rfl | rfl <;> decide
  · intro id
    refine ⟨?_, trivial⟩
    intro e he
    simp [mkTNOR] at he
    rcases he with rfl | rfl | rfl <;> decide
  · intro id
    refine ⟨?_, trivial⟩
    intro e he
    simp [mkTransistor] at he
    rcases he with rfl | rfl | rfl <;> decide
  · intro id
    refine ⟨?_, ?_⟩
    · intro e he
      simp [mkTLatch] at he
      rcases he with rfl | rfl | rfl <;> decide
    · simp [mkTLatch, stateValid, validTrit]
  · intro id
    refine ⟨?_, ?_⟩
    · intro e he
      simp [mkProbe] at he
      rw [he]
      decide
    · simp [mkProbe, stateValid, validTrit]
  · intro id
    refine ⟨?_, trivial⟩
    intro e he
    simp [mkTFullAdder] at he
    rcases he with rfl | rfl | rfl | rfl | rfl <;> decide

/-- Witness for C6: the invariant theorem applied at concrete values: a
step of the two-component chain circuit keeps every trit in range. -/
theorem trit_range_invariant_witness :
    validTrit (clamp_t 7) ∧ validTrit (resolve_wire [1, 1, -1]) ∧
    (mkSwitchTernary "s" 9).valid ∧
    ((Circuit.mk [("sw", mkSwitchTernary "sw" 1), ("n", mkTNOT "n")]
        [⟨"sw", "out", "n", "in"⟩]).step).toOption.map
      (fun c' => decide (Circuit.valid c')) = some true := by
  refine ⟨trit_range_invariant.1 7, trit_range_invariant.2.2.2.2.1 [1, 1, -1],
    trit_range_invariant.2.2.2.2.2.2.1 "s" 9, ?_⟩
  cases hs : (Circuit.mk [("sw", mkSwitchTernary "sw" 1), ("n", mkTNOT "n")]
      [⟨"sw", "out", "n", "in"⟩]).step with
  | error e =>
      have hok : isOkE (Circuit.mk [("sw", mkSwitchTernary "sw" 1), ("n", mkTNOT "n")]
          [⟨"sw", "out", "n", "in"⟩]).step = true := by decide
      rw [hs] at hok
      simp [isOkE] at hok
  | ok c' =>
      have hv' : Circuit.valid c' :=
        trit_range_invariant.2.2.2.2.2.2.2.2.2.2.2.2.2.2.1 _ c' hs (by decide)
      show some (decide (Circuit.valid c')) = some true
      rw [decide_eq_true hv']

/-- C7: the end-to-end smoke-test scenario.  With the seven components and
nine wires of `tests/smoke_test.py` built through the engine API, the probe
reads 0 after the first step; toggling sw1 (1 becomes -1) and sw2 (-1
becomes 0) and stepping again still reads 0. -/
theorem smoke_scenario :
    (smokeBuild >>= Circuit.step >>= (fun cc => cc.get_probe "p1")) =
      .ok 0 ∧
    (smokeBuild >>= Circuit.step >>= (fun cc => cc.toggle "sw1")).toOption.bind
      (fun cc => portValue cc "sw1" "out") = some (-1) ∧
    (smokeBuild >>= Circuit.step >>= (fun cc => cc.toggle "sw1") >>=
      (fun cc => cc.toggle "sw2")).toOption.bind
      (fun cc => portValue cc "sw2" "out") = some 0 ∧
    (smokeBuild >>= Circuit.step >>= (fun cc => cc.toggle "sw1") >>=
      (fun cc => cc.toggle "sw2") >>= Circuit.step >>=
      (fun cc => cc.get_probe "p1")) = .ok 0 := by
  exact ⟨by decide, by decide, by decide, by decide⟩

end Ternuino
